import Mathlib

/-!
# training_app: workout rotation, ISO week bucketing and volume aggregation

A shallow embedding of `src/app.js` (a browser workout tracker backed by three
spreadsheets) together with the properties its specification states about it.

Conventions of the embedding.

* A JavaScript `Date` is represented by the number of its local calendar day,
  counted from 1970-01-01 (`Int`), or by `none` for an `Invalid Date`.  The
  ECMAScript range limit of 10^8 days around the epoch is not modelled.
* Numbers that the application treats as quantities (volumes, percentages) are
  exact rationals; `NaN` is `none`.
* The pieces of the JavaScript runtime that turn text into numbers or dates
  (`ToNumber`, `parseFloat`, `new Date(string)`) are parameters of the model,
  collected in `Runtime`.
* `Array.prototype.sort` is a stable insertion sort (`arraySort`); where the
  comparator of the code is not consistent and the engine decides, V8's sort
  of a short array (`v8SortShort`) is modelled next to it.
* An object is the list of its properties.  ECMAScript enumerates integer-like
  keys before the others; nothing below depends on the order of enumeration.
-/

namespace TrainingApp

/-! ## ECMAScript date arithmetic (the runtime behind `Date`) -/

/-- ECMAScript `DayFromYear(y)`: the day number of 1 January of year `y`. -/
def dayFromYear (y : Int) : Int :=
  365 * (y - 1970) + (y - 1969) / 4 - (y - 1901) / 100 + (y - 1601) / 400

/-- ECMAScript `InLeapYear`, as a truth value. -/
def inLeapYear (y : Int) : Bool :=
  if y % 4 ≠ 0 then false
  else if y % 100 ≠ 0 then true
  else if y % 400 ≠ 0 then false
  else true

/-- ECMAScript `YearFromTime` on day numbers: the largest `y` with
`dayFromYear y ≤ n` (see `yearFromDay_le` and `yearFromDay_largest`), computed
from an estimate that is off by at most one. -/
def yearFromDay (n : Int) : Int :=
  let e := 1970 + (400 * n) / 146097
  if dayFromYear (e + 1) ≤ n then e + 1
  else if dayFromYear e ≤ n then e
  else e - 1

/-- ECMAScript `DayWithinYear`. -/
def dayWithinYear (n : Int) : Int := n - dayFromYear (yearFromDay n)

/-- Number of days of a year that precede month `m` (0-based), from the table
in the definition of ECMAScript `MonthFromTime`. -/
def monthStart (leap : Bool) (m : Int) : Int :=
  let l : Int := if leap then 1 else 0
  if m ≤ 0 then 0
  else if m = 1 then 31
  else if m = 2 then 59 + l
  else if m = 3 then 90 + l
  else if m = 4 then 120 + l
  else if m = 5 then 151 + l
  else if m = 6 then 181 + l
  else if m = 7 then 212 + l
  else if m = 8 then 243 + l
  else if m = 9 then 273 + l
  else if m = 10 then 304 + l
  else 334 + l

/-- ECMAScript `MonthFromTime` (0 = January). -/
def monthFromDay (n : Int) : Int :=
  let d := dayWithinYear n
  let l : Int := if inLeapYear (yearFromDay n) then 1 else 0
  if d < 31 then 0
  else if d < 59 + l then 1
  else if d < 90 + l then 2
  else if d < 120 + l then 3
  else if d < 151 + l then 4
  else if d < 181 + l then 5
  else if d < 212 + l then 6
  else if d < 243 + l then 7
  else if d < 273 + l then 8
  else if d < 304 + l then 9
  else if d < 334 + l then 10
  else 11

/-- ECMAScript `DateFromTime` (day of the month, from 1). -/
def dateFromDay (n : Int) : Int :=
  dayWithinYear n - monthStart (inLeapYear (yearFromDay n)) (monthFromDay n) + 1

/-- ECMAScript `WeekDay` (0 = Sunday); day 0 was a Thursday. -/
def weekDay (n : Int) : Int := (n + 4) % 7

/-- ECMAScript `MakeDay(year, month, date)` on integers: months outside
`0..11` carry into the year, the date may lie outside the month. -/
def makeDay (year month date : Int) : Int :=
  let ym := year + month / 12
  let mn := month % 12
  dayFromYear ym + monthStart (inLeapYear ym) mn + date - 1

/-- The year rule shared by `Date.UTC` and the multi-argument `Date`
constructor: a year from 0 to 99 means 1900 + year. -/
def fullYear (y : Int) : Int := if 0 ≤ y ∧ y ≤ 99 then 1900 + y else y

/-- The function `Date.UTC(year, month, date)` as a day number. -/
def dateUTC (year month date : Int) : Int := makeDay (fullYear year) month date

/-- The value `Math.ceil(a / b)` for an integer `a` and a positive integer `b`. -/
def ceilDiv (a b : Int) : Int := -((-a) / b)

/-! ## `getWeekNumber` (src/app.js, lines 694-699) -/

/-- The function `getWeekNumber(d)` for a valid date whose local calendar day is `n`.
```
d = new Date(Date.UTC(d.getFullYear(), d.getMonth(), d.getDate()));
d.setUTCDate(d.getUTCDate() + 4 - (d.getUTCDay() || 7));
const yearStart = new Date(Date.UTC(d.getUTCFullYear(), 0, 1));
return Math.ceil((((d - yearStart) / 86400000) + 1) / 7);
```
-/
def getWeekNumber (n : Int) : Int :=
  let d := dateUTC (yearFromDay n) (monthFromDay n) (dateFromDay n)
  let dow := if weekDay d = 0 then 7 else weekDay d
  let d := makeDay (yearFromDay d) (monthFromDay d) (dateFromDay d + 4 - dow)
  let yearStart := dateUTC (yearFromDay d) 0 1
  ceilDiv ((d - yearStart) + 1) 7

/-- The function `getWeekNumber` applied to any `Date`: an `Invalid Date` gives `NaN`. -/
def getWeekNumberOf (d : Option Int) : Option Int := d.map getWeekNumber

/-- The getter `date.getFullYear()`; `NaN` for an `Invalid Date`. -/
def getFullYear (d : Option Int) : Option Int := d.map yearFromDay

/-! ## ISO-8601 week numbering, as the specification words it -/

/-- Monday of the Monday-to-Sunday week that contains day `n`. -/
def weekMonday (n : Int) : Int := n - (weekDay n + 6) % 7

/-- Thursday of the Monday-to-Sunday week that contains day `n`. -/
def weekThursday (n : Int) : Int := weekMonday n + 3

/-- Ordinal of day `n` within its calendar year (1 January is 1). -/
def ordinalDay (n : Int) : Int := dayWithinYear n + 1

/-- ISO-8601 week number: the week index of the week's Thursday within the
Thursday's year. -/
def isoWeek (n : Int) : Int := (ordinalDay (weekThursday n) - 1) / 7 + 1

/-- ISO-8601 week-numbering year: the calendar year of the week's Thursday. -/
def isoWeekYear (n : Int) : Int := yearFromDay (weekThursday n)

/-- ISO-8601 week key `(year, week)`. -/
def isoWeekKey (n : Int) : Int × Int := (isoWeekYear n, isoWeek n)

/-! ## Strings -/

/-- The method `s.toLowerCase()`.  The embedding lowers the letters `A`-`Z` only; no other
character lowers to a letter of `ja` or `nej`, the only words the application
compares a lowered string with. -/
def toLowerCase (s : String) : String := String.mk (s.data.map Char.toLower)

/-- The method `s.includes(c)` for a one-character needle. -/
def includes (s : String) (c : Char) : Bool := s.data.contains c

/-- The method `key.endsWith(suffix)`. -/
def endsWith (s suffix : String) : Bool := suffix.data.isSuffixOf s.data

/-- Pieces of a character list between occurrences of `sep`. -/
def splitChars (sep : Char) : List Char → List (List Char)
  | [] => [[]]
  | c :: cs =>
    if c = sep then [] :: splitChars sep cs
    else
      match splitChars sep cs with
      | [] => [[c]]
      | p :: ps => (c :: p) :: ps

/-- The method `s.split(sep)` for a one-character separator. -/
def split (s : String) (sep : Char) : List String :=
  (splitChars sep s.data).map String.mk

/-! ## Data model -/

/-- The three sheets; `fetchSheet` is called with these three names only. -/
inductive WorkoutType where
  | Chest
  | Back
  | Legs
deriving DecidableEq, Repr

/-- A row object built by `fetchSheet`: `workoutType`, `originalRowIndex` and
one property per header cell (`fields`, in insertion order). -/
structure Workout where
  workoutType : WorkoutType
  originalRowIndex : Nat
  fields : List (String × String)
deriving DecidableEq, Repr

/-- Property read `w[key]`; `none` is `undefined`. -/
def Workout.get (w : Workout) (key : String) : Option String := w.fields.lookup key

/-- The test `w['Completed_workout']?.toLowerCase() === word`. -/
def completedIs (w : Workout) (word : String) : Bool :=
  (w.get "Completed_workout").map toLowerCase == some word

/-- Truthiness of a property holding a string: present and not empty. -/
def truthy (v : Option String) : Bool :=
  match v with
  | some s => s != ""
  | none => false

/-- The filter `w['Completed_workout']?.toLowerCase() === 'ja' && w.Datum`. -/
def completedWithDate (w : Workout) : Bool :=
  completedIs w "ja" && truthy (w.get "Datum")

/-- The parts of the JavaScript runtime that read numbers and dates from text.
`none` stands for `NaN`, respectively for an `Invalid Date`. -/
structure Runtime where
  /-- The abstract operation `ToNumber` on a string. -/
  toNumber : String → Option ℚ
  /-- The global `parseFloat`. -/
  parseFloat : String → Option ℚ
  /-- The local calendar day of `new Date(s)`. -/
  parseDate : String → Option Int

/-- The operation `ToNumber` of a value that is a string or `undefined`. -/
def toNumberOf (rt : Runtime) (v : Option String) : Option ℚ := v.bind rt.toNumber

/-- The operation `ToIntegerOrInfinity` on a finite number: truncation towards zero. -/
def truncate (q : ℚ) : Int := if 0 ≤ q then ⌊q⌋ else ⌈q⌉

/-- The constructor `new Date(year, month, date)` with numeric arguments: local midnight of the
day `MakeDay` gives, `Invalid Date` when an argument is `NaN`. -/
def newDate (year month date : Option ℚ) : Option Int :=
  match year, month, date with
  | some y, some m, some dt => some (makeDay (fullYear (truncate y)) (truncate m) (truncate dt))
  | _, _, _ => none

/-- The European reading of a date field:
```
const parts = dateStr.split('/');
new Date(parts[2], parts[1] - 1, parts[0])
```
-/
def slashDate (rt : Runtime) (dateStr : String) : Option Int :=
  let parts := split dateStr '/'
  newDate (toNumberOf rt parts[2]?) ((toNumberOf rt parts[1]?).map (fun m => m - 1))
    (toNumberOf rt parts[0]?)

/-- The date parsing of `prepareDashboard` and `showCompletionScreen`:
```
let date;
if (dateStr.includes('/')) { ... date = new Date(parts[2], parts[1] - 1, parts[0]); }
else if (dateStr.includes('-')) { date = new Date(dateStr); }
```
The outer `none` is `undefined`; `some none` is an `Invalid Date` object. -/
def parseDatum (rt : Runtime) (dateStr : String) : Option (Option Int) :=
  if includes dateStr '/' then some (slashDate rt dateStr)
  else if includes dateStr '-' then some (rt.parseDate dateStr)
  else none

/-- The comparison `a > b` of two dates; false when either is invalid. -/
def dateGt (a b : Option Int) : Bool :=
  match a, b with
  | some x, some y => decide (y < x)
  | _, _ => false

/-- The subtraction `a - b` of two dates in milliseconds; `NaN` when either is
invalid. -/
def dateSub (a b : Option Int) : Option Int :=
  match a, b with
  | some x, some y => some ((x - y) * 86400000)
  | _, _ => none

/-- The loop that finds a group's most recent completion date
(`handleFetchData` lines 88-97, `findNextWorkout` lines 170-179):
```
let lastDate = null;
for (const workout of group) {
  if (workout['Completed_workout']?.toLowerCase() === 'ja' && workout.Datum) {
    const workoutDate = new Date(parts[2], parts[1] - 1, parts[0]);
    if (!lastDate || workoutDate > lastDate) lastDate = workoutDate;
  }
}
```
This is one pass of the loop body; the outer `none` is `null`. -/
def lastCompletedStep (rt : Runtime) (lastDate : Option (Option Int)) (workout : Workout) :
    Option (Option Int) :=
  if completedWithDate workout then
    let workoutDate := slashDate rt ((workout.get "Datum").getD "")
    match lastDate with
    | none => some workoutDate
    | some ld => if dateGt workoutDate ld then some workoutDate else lastDate
  else lastDate

/-- The value of `lastDate` after the loop over a group. -/
def lastCompleted (rt : Runtime) (group : List Workout) : Option (Option Int) :=
  group.foldl (lastCompletedStep rt) none

/-! ## `Array.prototype.sort` -/

/-- Insertion of `x` in front of the first element it does not compare greater
than; a `NaN` comparison counts as 0. -/
def sortInsert {α : Type} (cmp : α → α → Option Int) (x : α) : List α → List α
  | [] => [x]
  | y :: ys =>
    if (cmp x y).getD 0 ≤ 0 then x :: y :: ys else y :: sortInsert cmp x ys

/-- The method `array.sort(cmp)`.  ECMAScript fixes the result for a comparator that is
consistent on the elements: the stable sorted arrangement, which is what this
insertion sort returns.  For other comparators the order is left to the
implementation, and this function is one admissible implementation. -/
def arraySort {α : Type} (cmp : α → α → Option Int) : List α → List α
  | [] => []
  | x :: xs => sortInsert cmp x (arraySort cmp xs)

/-! ## Application state -/

/-- The views `switchView` chooses between. -/
inductive View where
  | loader
  | home
  | workout
  | dashboard
  | completion
  | error
deriving DecidableEq, Repr

/-- The mutable globals of `app.js` together with the parts of the page the
modelled functions change: the active view, the state of the completion button
and what the progress chart was last drawn with. -/
structure AppState where
  allWorkoutsData : List Workout
  nextWorkoutData : Option Workout
  workoutSkipOffset : Int
  currentWorkoutGroupIndex : Nat
  activeView : View
  completeBtnDisabled : Bool
  progressChart : Option (ℚ × ℚ)

/-- The constant `const workoutGroupOrder = ['Chest', 'Back', 'Legs']`. -/
def workoutGroupOrder : List WorkoutType := [.Chest, .Back, .Legs]

/-- The lookup `workoutGroupOrder.indexOf(t)`. -/
def groupIndex : WorkoutType → Nat
  | .Chest => 0
  | .Back => 1
  | .Legs => 2

/-- The function `showError(message)`: the error view becomes active. -/
def showError (s : AppState) : AppState := { s with activeView := .error }

/-! ## Initial group choice: `handleFetchData` (lines 72-118) -/

/-- The comparator of `lastCompletedDates.sort` in `handleFetchData`, on the
`lastDate` of the two entries:
```
if (!a.lastDate) return -1; // Groups with no completed workouts first
if (!b.lastDate) return 1;
return a.lastDate - b.lastDate;
```
-/
def compareLastDates (a b : Option (Option Int)) : Option Int :=
  match a, b with
  | none, _ => some (-1)
  | some _, none => some 1
  | some x, some y => dateSub x y

/-- The function `handleFetchData`.  The argument `sheets` is the outcome of
the three `fetchSheet` calls: `none` when one of them failed, else the rows of
Chest, Back and Legs.  Reading `group[0].workoutType` of an empty group throws,
which the `catch` turns into `showError`. -/
def handleFetchData (rt : Runtime)
    (sheets : Option (List Workout × List Workout × List Workout)) (s : AppState) : AppState :=
  let s := { s with workoutSkipOffset := -1, activeView := View.loader }
  match sheets with
  | none => showError s
  | some (chestData, backData, legsData) =>
    let s := { s with allWorkoutsData := chestData ++ backData ++ legsData }
    let workoutGroups := [chestData, backData, legsData]
    let lastCompletedDates := workoutGroups.map (fun group => (group, lastCompleted rt group))
    let sorted := arraySort (fun a b => compareLastDates a.2 b.2) lastCompletedDates
    match sorted.head? with
    | none => showError s
    | some first =>
      match first.1.head? with
      | none => showError s
      | some w =>
        { s with currentWorkoutGroupIndex := groupIndex w.workoutType, activeView := View.home }

/-! ## Selection across all groups: `findNextWorkout` (lines 158-206) -/

/-- Property assignment `o[k] = v` on an object kept as a list of entries in
insertion order. -/
def objSet {κ ν : Type} [DecidableEq κ] (o : List (κ × ν)) (k : κ) (v : ν) : List (κ × ν) :=
  match o with
  | [] => [(k, v)]
  | (k', v') :: rest => if k' = k then (k, v) :: rest else (k', v') :: objSet rest k v

/-- Property read `o[k]`; `none` is `undefined`. -/
def objGet {κ ν : Type} [DecidableEq κ] (o : List (κ × ν)) (k : κ) : Option ν :=
  match o with
  | [] => none
  | (k', v') :: rest => if k' = k then some v' else objGet rest k

/-- One pass of the loop that fills the map `lastCompletedDates` of
`findNextWorkout`: for a non-empty group, the entry of its first row's type is
set to the group's last date (which may be `null`). -/
def lastCompletedMapStep (rt : Runtime) (m : List (WorkoutType × Option (Option Int)))
    (group : List Workout) : List (WorkoutType × Option (Option Int)) :=
  match group.head? with
  | some w => objSet m w.workoutType (lastCompleted rt group)
  | none => m

/-- The map `lastCompletedDates` after the loop over all groups. -/
def lastCompletedMap (rt : Runtime) (workoutGroups : List (List Workout)) :
    List (WorkoutType × Option (Option Int)) :=
  workoutGroups.foldl (lastCompletedMapStep rt) []

/-- The table `typeOrder = { 'Chest': 0, 'Back': 1, 'Legs': 2 }`. -/
def typeOrder : WorkoutType → Int
  | .Chest => 0
  | .Back => 1
  | .Legs => 2

/-- The comparator of `uncompletedWorkouts.sort` in `findNextWorkout`.  A
missing or `null` entry of the map is falsy.  Two rows read the same `Date`
object exactly when they have the same `workoutType`, so `aDate !== bDate`
holds exactly for rows of different types. -/
def compareWorkouts (m : List (WorkoutType × Option (Option Int))) (a b : Workout) :
    Option Int :=
  let aDate := (objGet m a.workoutType).join
  let bDate := (objGet m b.workoutType).join
  match aDate, bDate with
  | none, some _ => some (-1)
  | some _, none => some 1
  | none, none =>
    if typeOrder a.workoutType ≠ typeOrder b.workoutType then
      some (typeOrder a.workoutType - typeOrder b.workoutType)
    else some ((a.originalRowIndex : Int) - (b.originalRowIndex : Int))
  | some da, some db =>
    if a.workoutType ≠ b.workoutType then dateSub da db
    else some ((a.originalRowIndex : Int) - (b.originalRowIndex : Int))

/-- The pool `uncompletedWorkouts` of `findNextWorkout`, before sorting. -/
def uncompletedWorkouts (workoutGroups : List (List Workout)) : List Workout :=
  workoutGroups.flatten.filter (fun w => completedIs w "nej")

/-- The function `findNextWorkout(workoutGroups, offset)`; `none` is `null`. -/
def findNextWorkout (rt : Runtime) (workoutGroups : List (List Workout)) (offset : Nat) :
    Option Workout :=
  let pool := uncompletedWorkouts workoutGroups
  if pool.length = 0 then none
  else
    let m := lastCompletedMap rt workoutGroups
    (arraySort (compareWorkouts m) pool)[offset]?

/-! ## Selection within the current group and skip (lines 393-407) -/

/-- The function `updateWorkoutView`: the first row of the current group whose
completion cell reads `nej` becomes `nextWorkoutData`. -/
def updateWorkoutView (s : AppState) : AppState :=
  let currentGroup := workoutGroupOrder[s.currentWorkoutGroupIndex]?
  let workoutsInGroup := s.allWorkoutsData.filter
    (fun w => (some w.workoutType == currentGroup) && completedIs w "nej")
  { s with nextWorkoutData := workoutsInGroup.head? }

/-- The function `skipWorkout`. -/
def skipWorkout (s : AppState) : AppState :=
  updateWorkoutView { s with currentWorkoutGroupIndex := (s.currentWorkoutGroupIndex + 1) % 3 }

/-! ## Volumes -/

/-- The loop over the properties of a row that adds its volume cells to `acc`:
```
for (const key in workout)
  if (key.endsWith('_volym') && workout[key]) acc += parseFloat(workout[key]) || 0;
```
-/
def addVolumes (rt : Runtime) (w : Workout) (acc : ℚ) : ℚ :=
  w.fields.foldl (fun a kv =>
    if endsWith kv.1 "_volym" && truthy (some kv.2) then a + (rt.parseFloat kv.2).getD 0
    else a) acc

/-- The same loop for `nextWorkoutData`, which may be `null`. -/
def addVolumesOf (rt : Runtime) (w : Option Workout) (acc : ℚ) : ℚ :=
  match w with
  | some w => addVolumes rt w acc
  | none => acc

/-! ## Completion: `markWorkoutComplete` and `showCompletionScreen` (lines 257-332) -/

/-- The constant `weeklyGoal` of `showCompletionScreen`, in kg. -/
def weeklyGoal : ℚ := 12000

/-- The volume `showCompletionScreen` adds up from the snapshot: rows that are
completed with a date, whose parsed date is valid, has the week number of
`today` and lies in the calendar year of `today`. -/
def snapshotWeekVolume (rt : Runtime) (today : Int) (all : List Workout) : ℚ :=
  let completedWorkouts := all.filter completedWithDate
  let currentWeekNumber := getWeekNumber today
  let currentYear := yearFromDay today
  completedWorkouts.foldl (fun acc workout =>
    match parseDatum rt ((workout.get "Datum").getD "") with
    | some (some n) =>
      if getWeekNumber n = currentWeekNumber ∧ yearFromDay n = currentYear then
        addVolumes rt workout acc
      else acc
    | _ => acc) 0

/-- The value of `currentWeekVolume` when `showCompletionScreen` draws the
chart: the snapshot's volume of the week, then the volume cells of
`nextWorkoutData` added on top. -/
def currentWeekVolume (rt : Runtime) (today : Int) (s : AppState) : ℚ :=
  addVolumesOf rt s.nextWorkoutData (snapshotWeekVolume rt today s.allWorkoutsData)

/-- The expression `Math.min((currentWeekVolume / weeklyGoal) * 100, 100)`. -/
def progressPercentage (volume : ℚ) : ℚ := min ((volume / weeklyGoal) * 100) 100

/-- The function `showCompletionScreen`: draws the progress chart with the
percentage and the volume, and activates the completion view.  It assigns to
none of `allWorkoutsData`, `nextWorkoutData`, `currentWorkoutGroupIndex`. -/
def showCompletionScreen (rt : Runtime) (today : Int) (s : AppState) : AppState :=
  let volume := currentWeekVolume rt today s
  { s with progressChart := some (progressPercentage volume, volume),
           activeView := View.completion }

/-- The text `x.toFixed(1)` as a number of tenths: the nearest tenth, a tie
going away from zero. -/
def toFixed1 (x : ℚ) : Int := if x < 0 then -⌊(-x) * 10 + 1 / 2⌋ else ⌊x * 10 + 1 / 2⌋

/-- What the write-back request came back with: a transport failure (or a body
that is not JSON), or a JSON body with its `status` property. -/
inductive WriteBack where
  | failed
  | json (status : Option String)
deriving DecidableEq, Repr

/-- The request body of `markWorkoutComplete`; `date` is `formattedDate` as
year, month (from 1) and day of `today`. -/
structure Payload where
  sheetName : WorkoutType
  rowIndex : Nat
  date : Int × Int × Int
deriving DecidableEq, Repr

/-- The payload `markWorkoutComplete` sends for the selected row. -/
def completionPayload (today : Int) (s : AppState) : Option Payload :=
  s.nextWorkoutData.map (fun w =>
    { sheetName := w.workoutType, rowIndex := w.originalRowIndex,
      date := (yearFromDay today, monthFromDay today + 1, dateFromDay today) })

/-- The function `markWorkoutComplete`, given what the request came back with.
Without a selected row, building the payload throws before the `try`, and the
button stays disabled.  A `success` status leads to `showCompletionScreen`;
anything else to the alert and the re-enabled button. -/
def markWorkoutComplete (rt : Runtime) (today : Int) (response : WriteBack) (s : AppState) :
    AppState :=
  let s := { s with completeBtnDisabled := true }
  match s.nextWorkoutData with
  | none => s
  | some _ =>
    if response = WriteBack.json (some "success") then showCompletionScreen rt today s
    else { s with completeBtnDisabled := false }

/-! ## Dashboard aggregation: `prepareDashboard` (lines 508-555) -/

/-- The key `${year}-W${getWeekNumber(date)}` as the pair of its two numbers;
`none` prints as `NaN`. -/
abbrev WeekKey := Option Int × Option Int

/-- The two objects `prepareDashboard` fills and later draws.  The third one,
`firstWorkoutDate`, is written but never read and is left out. -/
structure Dashboard where
  weeklyVolume : List (WorkoutType × List (WeekKey × ℚ))
  exerciseCounts : List (WorkoutType × Nat)
deriving DecidableEq

/-- The body of `completed.forEach(workout => ...)` in `prepareDashboard`. -/
def dashboardStep (rt : Runtime) (acc : Dashboard) (workout : Workout) : Dashboard :=
  match parseDatum rt ((workout.get "Datum").getD "") with
  | none => acc
  | some date =>
    let year := getFullYear date
    let exerciseType := workout.workoutType
    let counts :=
      if (objGet acc.exerciseCounts exerciseType).getD 0 = 0 then
        objSet acc.exerciseCounts exerciseType 0
      else acc.exerciseCounts
    let counts := objSet counts exerciseType ((objGet counts exerciseType).getD 0 + 1)
    let totalVolume := addVolumes rt workout 0
    if 0 < totalVolume then
      let weekKey : WeekKey := (year, getWeekNumberOf date)
      let weekly :=
        if (objGet acc.weeklyVolume exerciseType).isNone then
          objSet acc.weeklyVolume exerciseType []
        else acc.weeklyVolume
      let inner := (objGet weekly exerciseType).getD []
      let inner := objSet inner weekKey ((objGet inner weekKey).getD 0 + totalVolume)
      { weeklyVolume := objSet weekly exerciseType inner, exerciseCounts := counts }
    else { acc with exerciseCounts := counts }

/-- The aggregation of `prepareDashboard` over the snapshot. -/
def prepareDashboard (rt : Runtime) (allWorkoutsData : List Workout) : Dashboard :=
  let completed := allWorkoutsData.filter completedWithDate
  completed.foldl (dashboardStep rt) { weeklyVolume := [], exerciseCounts := [] }

/-- The entry `weeklyVolume[group][key]`; `none` when it is missing. -/
def Dashboard.volumeAt (d : Dashboard) (group : WorkoutType) (key : WeekKey) : Option ℚ :=
  (objGet d.weeklyVolume group).bind (fun inner => objGet inner key)

/-- The entry `exerciseCounts[group]`; `none` when it is missing. -/
def Dashboard.countAt (d : Dashboard) (group : WorkoutType) : Option Nat :=
  objGet d.exerciseCounts group

/-! ## A concrete runtime for evaluating the model -/

/-- Value of a non-empty string of decimal digits. -/
def digitsValue (cs : List Char) : Option Nat :=
  if cs ≠ [] ∧ cs.all Char.isDigit then
    some (cs.foldl (fun n c => 10 * n + (c.toNat - 48)) 0)
  else none

/-- Number of days of month `m` (from 1) in year `y`. -/
def daysInMonth (y m : Int) : Int :=
  if m = 12 then 31 else monthStart (inLeapYear y) m - monthStart (inLeapYear y) (m - 1)

/-- Day number of a date string of the exact form `YYYY-MM-DD` that names an
existing calendar day, read as ECMAScript reads a date-only string. -/
def isoDateDay (s : String) : Option Int :=
  match splitChars '-' s.data with
  | [y, m, d] =>
    if y.length = 4 ∧ m.length = 2 ∧ d.length = 2 then
      match digitsValue y, digitsValue m, digitsValue d with
      | some y, some m, some d =>
        if 1 ≤ m ∧ m ≤ 12 ∧ 1 ≤ d ∧ (d : Int) ≤ daysInMonth y m then
          some (makeDay y ((m : Int) - 1) d)
        else none
      | _, _, _ => none
    else none
  | _ => none

/-- A runtime that agrees with ECMAScript on the texts the evaluations below
feed it: `ToNumber` of the empty string (0), of a string of decimal digits and
of text without any digit (`NaN`); `parseFloat` of a string of decimal digits
and of text without any digit; `new Date(s)` for `s` of the form `YYYY-MM-DD`
on a host whose local time is UTC.  On other texts it answers `NaN`. -/
def digitRuntime : Runtime where
  toNumber := fun s => if s = "" then some 0 else (digitsValue s.data).map (fun n => (n : ℚ))
  parseFloat := fun s => (digitsValue s.data).map (fun n => (n : ℚ))
  parseDate := isoDateDay

/-- A row with the given completion cell, date cell and one volume cell. -/
def mkRow (t : WorkoutType) (row : Nat) (completed datum volym : String) : Workout :=
  { workoutType := t, originalRowIndex := row,
    fields := [("Completed_workout", completed), ("Datum", datum), ("Bench_volym", volym)] }

/-- An application state right after page load, holding the given rows. -/
def stateWith (all : List Workout) (index : Nat) : AppState :=
  { allWorkoutsData := all, nextWorkoutData := none, workoutSkipOffset := -1,
    currentWorkoutGroupIndex := index, activeView := View.home,
    completeBtnDisabled := false, progressChart := none }

/-! ## The specification's reading of completion and of dates

The definitions of this section follow the words of the specification, not
the code; they are what the code is compared with. -/

/-- The data model's `completed`: true exactly when the raw completion cell,
lower-cased, is `ja`; false for any other value and for an absent cell. -/
def specCompleted (w : Workout) : Bool := completedIs w "ja"

/-- The within-group next session of the specification: among the group's
sessions with `completed == false`, the one with the smallest `rowIndex`;
`none` when there is no such session. -/
def specNextInGroup (all : List Workout) (g : WorkoutType) : Option Workout :=
  (all.filter (fun w => decide (w.workoutType = g) && !specCompleted w)).foldl
    (fun best w =>
      match best with
      | none => some w
      | some b => if w.originalRowIndex < b.originalRowIndex then some w else some b)
    none

/-- A calendar day given by three decimal numerals, when month and day exist
in the calendar. -/
def specCalendarDay (year month day : String) : Option Int :=
  match digitsValue year.data, digitsValue month.data, digitsValue day.data with
  | some y, some m, some d =>
    if 1 ≤ m ∧ m ≤ 12 ∧ 1 ≤ d ∧ (d : Int) ≤ daysInMonth y m then
      some (makeDay y ((m : Int) - 1) d)
    else none
  | _, _, _ => none

/-- The date of a session as the specification resolves it: day/month/year
when the field contains `/`, year-month-day when it contains `-`, absent for
a blank field, another format or components that name no calendar day. -/
def specDate (w : Workout) : Option Int :=
  let field := (w.get "Datum").getD ""
  if includes field '/' then
    match split field '/' with
    | [d, m, y] => specCalendarDay y m d
    | _ => none
  else if includes field '-' then
    match split field '-' with
    | [y, m, d] => specCalendarDay y m d
    | _ => none
  else none

/-- The session count of the specification: sessions of the group that are
completed and have a resolvable date. -/
def specSessionCount (all : List Workout) (g : WorkoutType) : Nat :=
  (all.filter (fun w => decide (w.workoutType = g) && specCompleted w && (specDate w).isSome)).length

/-- The sessions the code counts for a group: completed, with a date cell
that is not blank and contains `/` or `-`. -/
def countedSessions (all : List Workout) (g : WorkoutType) : List Workout :=
  all.filter (fun w => decide (w.workoutType = g) && completedWithDate w &&
    (includes ((w.get "Datum").getD "") '/' || includes ((w.get "Datum").getD "") '-'))

/-- The volume of the session just marked complete: the volume cells of
`nextWorkoutData`, added up from 0. -/
def sessionVolume (rt : Runtime) (s : AppState) : ℚ := addVolumesOf rt s.nextWorkoutData 0

/-- The bucket key `prepareDashboard` computes for a row: `none` when the row's
date cell contains neither `/` nor `-`. -/
def weekKeyOf (rt : Runtime) (w : Workout) : Option WeekKey :=
  (parseDatum rt ((w.get "Datum").getD "")).map
    (fun date => (getFullYear date, getWeekNumberOf date))

/-- The sessions whose volume `prepareDashboard` adds to the bucket `key` of
group `g`: counted sessions with a positive total volume whose date gives that
key. -/
def bucketSessions (rt : Runtime) (all : List Workout) (g : WorkoutType) (key : WeekKey) :
    List Workout :=
  (countedSessions all g).filter (fun w =>
    decide (0 < addVolumes rt w 0) && decide (weekKeyOf rt w = some key))

/-! ## The specification's ordering of the global pool -/

/-- The pool of the specification: every session with `completed == false`. -/
def specPool (groups : List (List Workout)) : List Workout :=
  groups.flatten.filter (fun w => !specCompleted w)

/-- The sessions of the group `t`: the data model attaches the group to each
session. -/
def specGroup (groups : List (List Workout)) (t : WorkoutType) : List Workout :=
  groups.flatten.filter (fun w => decide (w.workoutType = t))

/-- The value `lastCompletedDate` of a group in the data model: the maximum
date over its completed sessions, absent if no completed session has a date. -/
def specLastCompletedDate (group : List Workout) : Option Int :=
  ((group.filter specCompleted).filterMap specDate).max?

/-- The order of the global selection in the specification, as "`a` does not
come after `b`": a group without completed history first, then the groups'
`lastCompletedDate` ascending, then the priority Chest, Back, Legs, then
`rowIndex` ascending. -/
def specPrecedes (groups : List (List Workout)) (a b : Workout) : Bool :=
  match specLastCompletedDate (specGroup groups a.workoutType),
        specLastCompletedDate (specGroup groups b.workoutType) with
  | none, some _ => true
  | some _, none => false
  | none, none =>
    decide (groupIndex a.workoutType < groupIndex b.workoutType) ||
      (decide (groupIndex a.workoutType = groupIndex b.workoutType) &&
        decide (a.originalRowIndex ≤ b.originalRowIndex))
  | some x, some y =>
    decide (x < y) ||
      (decide (x = y) &&
        (decide (groupIndex a.workoutType < groupIndex b.workoutType) ||
          (decide (groupIndex a.workoutType = groupIndex b.workoutType) &&
            decide (a.originalRowIndex ≤ b.originalRowIndex))))

/-- Groups as `fetchSheet` delivers them: the sessions of one list share their
type, and two lists never hold sessions of the same type. -/
def GroupsByType (groups : List (List Workout)) : Prop :=
  (∀ G ∈ groups, ∀ a ∈ G, ∀ b ∈ G, a.workoutType = b.workoutType) ∧
  groups.Pairwise (fun G H => ∀ a ∈ G, ∀ b ∈ H, a.workoutType ≠ b.workoutType)

/-- Every completed session with a non-blank date cell has a day/month/year
date that the runtime reads as the calendar day the specification means. -/
def DatesReadable (rt : Runtime) (groups : List (List Workout)) : Prop :=
  ∀ G ∈ groups, ∀ w ∈ G, completedWithDate w = true →
    (specDate w).isSome = true ∧ slashDate rt ((w.get "Datum").getD "") = specDate w

/-- No two groups share their last completion date. -/
def LastDatesDistinct (groups : List (List Workout)) : Prop :=
  groups.Pairwise (fun G H =>
    specLastCompletedDate G = none ∨ specLastCompletedDate H = none ∨
      specLastCompletedDate G ≠ specLastCompletedDate H)

/-! ## The sessions of the current week in `showCompletionScreen` -/

/-- The test under which `showCompletionScreen` adds a row's volume to the
volume of the current week: the row is completed with a date, its date parses
to a valid `Date`, and
`getWeekNumber(date) === currentWeekNumber && date.getFullYear() === currentYear`. -/
def includedInWeek (rt : Runtime) (today : Int) (w : Workout) : Bool :=
  completedWithDate w &&
    match parseDatum rt ((w.get "Datum").getD "") with
    | some (some n) =>
      decide (getWeekNumber n = getWeekNumber today ∧ yearFromDay n = yearFromDay today)
    | _ => false

/-! ## Hosts away from UTC -/

/-- A runtime like `digitRuntime` on a host whose local time is `offset`
minutes ahead of UTC (negative west of Greenwich).  ECMAScript reads a
date-only string `YYYY-MM-DD` as midnight UTC; the local calendar day of that
instant is the day that contains minute `offset` of the UTC day. -/
def hostRuntime (offset : Int) : Runtime where
  toNumber := digitRuntime.toNumber
  parseFloat := digitRuntime.parseFloat
  parseDate := fun s => (isoDateDay s).map (fun d => (d * 1440 + offset) / 1440)

/-! ## Row parsing: `fetchSheet` (lines 126-154) -/

/-- The characters `String.prototype.trim` strips: the ECMAScript `WhiteSpace`
and `LineTerminator` code points. -/
def isTrimChar (c : Char) : Bool :=
  let n := c.toNat
  n == 0x9 || n == 0xA || n == 0xB || n == 0xC || n == 0xD || n == 0x20 || n == 0xA0 ||
  n == 0x1680 || (decide (0x2000 ≤ n) && decide (n ≤ 0x200A)) || n == 0x2028 || n == 0x2029 ||
  n == 0x202F || n == 0x205F || n == 0x3000 || n == 0xFEFF

/-- The method `s.trim()`. -/
def trim (s : String) : String :=
  String.mk (((s.data.dropWhile isTrimChar).reverse.dropWhile isTrimChar).reverse)

/-- A property value of a row object: a cell text, the row number, or the
sheet's type. -/
inductive Value where
  | text (s : String)
  | number (n : Nat)
  | group (t : WorkoutType)
deriving DecidableEq, Repr

/-- A row object as `fetchSheet` builds it: its properties in insertion
order. -/
abbrev RowObject := List (String × Value)

/-- The row object of line `i` (0-based among all lines):
```
let row = { workoutType: type, originalRowIndex: i + 1 };
headers.forEach((header, index) => { row[header] = values[index]; });
```
-/
def buildRow (type : WorkoutType) (i : Nat) (headers values : List String) : RowObject :=
  (headers.zip values).foldl (fun row hv => objSet row hv.1 (Value.text hv.2))
    [("workoutType", Value.group type), ("originalRowIndex", Value.number (i + 1))]

/-- The cells of a line: `line.split(',').map(v => v.trim())`. -/
def cells (line : String) : List String := (split line ',').map trim

/-- The loop `for (let i = ...; i < lines.length; i++)` of `fetchSheet`, from
index `i` on, over the lines that remain. -/
def parseLines (type : WorkoutType) (headers : List String) : Nat → List String → List RowObject
  | _, [] => []
  | i, line :: rest =>
    if (cells line).length = headers.length then
      buildRow type i headers (cells line) :: parseLines type headers (i + 1) rest
    else parseLines type headers (i + 1) rest

/-- The function `fetchSheet` from the response text on (a response that is
not ok throws, which is the `none` of `handleFetchData`):
```
const lines = text.trim().split('\n');
if (lines.length < 2) return [];
const headers = lines[0].split(',').map(h => h.trim());
for (let i = 1; i < lines.length; i++) { ... }
```
-/
def fetchSheet (type : WorkoutType) (text : String) : List RowObject :=
  let lines := split (trim text) '\n'
  if lines.length < 2 then []
  else
    match lines with
    | [] => []
    | header :: dataLines => parseLines type (cells header) 1 dataLines

/-- The property `row.originalRowIndex`. -/
def rowIndexOf (row : RowObject) : Option Value := objGet row "originalRowIndex"

/-- The 1-based positions, in the trimmed text, of the data lines that have as
many cells as the header line; the header is line 1. -/
def keptPositions (text : String) : List Nat :=
  match split (trim text) '\n' with
  | [] => []
  | header :: dataLines =>
    ((dataLines.enumFrom 2).filter
      (fun pl => decide ((cells pl.2).length = (cells header).length))).map Prod.fst

/-! ## `handleFetchData` on another engine -/

/-- The function `handleFetchData` on an engine whose `Array.prototype.sort`
is `sort`.  With `arraySort` this is `handleFetchData`. -/
def handleFetchDataOn
    (sort : (List Workout × Option (Option Int) → List Workout × Option (Option Int) → Option Int) →
      List (List Workout × Option (Option Int)) → List (List Workout × Option (Option Int)))
    (rt : Runtime) (sheets : Option (List Workout × List Workout × List Workout))
    (s : AppState) : AppState :=
  let s := { s with workoutSkipOffset := -1, activeView := View.loader }
  match sheets with
  | none => showError s
  | some (chestData, backData, legsData) =>
    let s := { s with allWorkoutsData := chestData ++ backData ++ legsData }
    let workoutGroups := [chestData, backData, legsData]
    let lastCompletedDates := workoutGroups.map (fun group => (group, lastCompleted rt group))
    let sorted := sort (fun a b => compareLastDates a.2 b.2) lastCompletedDates
    match sorted.head? with
    | none => showError s
    | some first =>
      match first.1.head? with
      | none => showError s
      | some w =>
        { s with currentWorkoutGroupIndex := groupIndex w.workoutType, activeView := View.home }

/-- The loop of V8's `CountAndMakeRun` after its first comparison: how many
further elements continue the run that ends in `prev`.  Each element is
compared with its predecessor; a descending run goes on while the result is
negative, an ascending one while it is not. -/
def runContinues {α : Type} (cmp : α → α → Option Int) (isDescending : Bool) (prev : α) :
    List α → Nat
  | [] => 0
  | x :: xs =>
    let order := (cmp x prev).getD 0
    if isDescending then
      if 0 ≤ order then 0 else 1 + runContinues cmp isDescending x xs
    else
      if order < 0 then 0 else 1 + runContinues cmp isDescending x xs

/-- The binary search of V8's `BinaryInsertionSort` for the place of `pivot`
in the sorted part: `right = mid` when `pivot` compares negative against the
middle element, else `left = mid + 1`. -/
def insertionPoint {α : Type} (cmp : α → α → Option Int) (pivot : α) (sorted : List α) :
    Nat → Nat → Nat → Nat
  | 0, left, _ => left
  | fuel + 1, left, right =>
    if left < right then
      let mid := left + (right - left) / 2
      match sorted[mid]? with
      | none => left
      | some e =>
        if (cmp pivot e).getD 0 < 0 then insertionPoint cmp pivot sorted fuel left mid
        else insertionPoint cmp pivot sorted fuel (mid + 1) right
    else left

/-- V8's `BinaryInsertionSort`: each remaining element is put at its insertion
point in the sorted part. -/
def binaryInsertionSort {α : Type} (cmp : α → α → Option Int) : List α → List α → List α
  | sorted, [] => sorted
  | sorted, pivot :: rest =>
    let left := insertionPoint cmp pivot sorted (sorted.length + 1) 0 sorted.length
    binaryInsertionSort cmp (sorted.take left ++ pivot :: sorted.drop left) rest

/-- The method `array.sort(cmp)` as V8 (Chrome, Node.js) runs it on an array
of fewer than 64 elements: `CountAndMakeRun` finds the initial run, comparing
the second element with the first, and reverses it when it is descending;
`BinaryInsertionSort` places the elements after the run.  A `NaN` comparison
counts as 0. -/
def v8SortShort {α : Type} (cmp : α → α → Option Int) (l : List α) : List α :=
  match l with
  | a0 :: a1 :: rest =>
    let isDescending := decide ((cmp a1 a0).getD 0 < 0)
    let runLength := 2 + runContinues cmp isDescending a1 rest
    let run := l.take runLength
    binaryInsertionSort cmp (if isDescending then run.reverse else run) (l.drop runLength)
  | _ => l

/-- The row object seen through the data model of the other functions: the
sheet's type, the row number, and the cell texts in insertion order.  A row
whose `workoutType` or `originalRowIndex` was overwritten by a cell text is
outside that model (`none`). -/
def RowObject.toWorkout (row : RowObject) : Option Workout :=
  match objGet row "workoutType", objGet row "originalRowIndex" with
  | some (Value.group t), some (Value.number n) =>
    some { workoutType := t, originalRowIndex := n,
           fields := row.filterMap (fun kv =>
             match kv.2 with
             | Value.text s => some (kv.1, s)
             | _ => none) }
  | _, _ => none

/-! ### Basic facts about the date arithmetic -/

theorem yearFromDay_le (n : Int) : dayFromYear (yearFromDay n) ≤ n := by
  unfold yearFromDay dayFromYear
  simp only
  split_ifs <;> omega

theorem yearFromDay_lt (n : Int) : n < dayFromYear (yearFromDay n + 1) := by
  unfold yearFromDay
  simp only
  split_ifs with h1 h2
  · unfold dayFromYear
    omega
  · omega
  · rw [Int.sub_add_cancel]
    omega

theorem dayFromYear_mono {a b : Int} (h : a ≤ b) : dayFromYear a ≤ dayFromYear b := by
  unfold dayFromYear
  omega

theorem yearFromDay_largest (n y : Int) (h : dayFromYear y ≤ n) : y ≤ yearFromDay n := by
  by_contra hc
  have h1 : yearFromDay n + 1 ≤ y := by omega
  have h2 := dayFromYear_mono h1
  have h3 := yearFromDay_lt n
  omega

theorem dayFromYear_succ (y : Int) :
    dayFromYear (y + 1) = dayFromYear y + (if inLeapYear y then 366 else 365) := by
  have a4 : (y + 1 - 1969) / 4 = (y - 1969) / 4 + (if y % 4 = 0 then 1 else 0) := by
    split_ifs <;> omega
  have a100 : (y + 1 - 1901) / 100 = (y - 1901) / 100 + (if y % 100 = 0 then 1 else 0) := by
    split_ifs <;> omega
  have a400 : (y + 1 - 1601) / 400 = (y - 1601) / 400 + (if y % 400 = 0 then 1 else 0) := by
    split_ifs <;> omega
  unfold dayFromYear inLeapYear
  rw [a4, a100, a400]
  by_cases h4 : y % 4 = 0 <;> by_cases h100 : y % 100 = 0 <;> by_cases h400 : y % 400 = 0 <;>
    simp [h4, h100, h400] <;> omega

theorem yearFromDay_unique (n y : Int) (h1 : dayFromYear y ≤ n) (h2 : n < dayFromYear (y + 1)) :
    yearFromDay n = y := by
  have h3 := yearFromDay_largest n y h1
  by_contra hc
  have h4 : y + 1 ≤ yearFromDay n := by omega
  have h5 := dayFromYear_mono h4
  have h6 := yearFromDay_le n
  omega

theorem dayWithinYear_nonneg (n : Int) : 0 ≤ dayWithinYear n := by
  have := yearFromDay_le n
  unfold dayWithinYear
  omega

theorem dayWithinYear_lt (n : Int) :
    dayWithinYear n < (if inLeapYear (yearFromDay n) then 366 else 365) := by
  have h1 := yearFromDay_lt n
  rw [dayFromYear_succ] at h1
  unfold dayWithinYear
  omega

theorem monthFromDay_range (n : Int) : 0 ≤ monthFromDay n ∧ monthFromDay n ≤ 11 := by
  unfold monthFromDay
  generalize dayWithinYear n = d
  generalize (if inLeapYear (yearFromDay n) = true then (1 : Int) else 0) = l
  show 0 ≤ ite _ _ _ ∧ ite _ _ _ ≤ 11
  by_cases h0 : d < 31
  · rw [if_pos h0]
    omega
  rw [if_neg h0]
  by_cases h1 : d < 59 + l
  · rw [if_pos h1]
    omega
  rw [if_neg h1]
  by_cases h2 : d < 90 + l
  · rw [if_pos h2]
    omega
  rw [if_neg h2]
  by_cases h3 : d < 120 + l
  · rw [if_pos h3]
    omega
  rw [if_neg h3]
  by_cases h4 : d < 151 + l
  · rw [if_pos h4]
    omega
  rw [if_neg h4]
  by_cases h5 : d < 181 + l
  · rw [if_pos h5]
    omega
  rw [if_neg h5]
  by_cases h6 : d < 212 + l
  · rw [if_pos h6]
    omega
  rw [if_neg h6]
  by_cases h7 : d < 243 + l
  · rw [if_pos h7]
    omega
  rw [if_neg h7]
  by_cases h8 : d < 273 + l
  · rw [if_pos h8]
    omega
  rw [if_neg h8]
  by_cases h9 : d < 304 + l
  · rw [if_pos h9]
    omega
  rw [if_neg h9]
  by_cases h10 : d < 334 + l
  · rw [if_pos h10]
    omega
  rw [if_neg h10]
  omega

/-- Rebuilding a day from its own calendar fields, with the date shifted by
`k`, gives the day shifted by `k`. -/
theorem makeDay_fields (n k : Int) :
    makeDay (yearFromDay n) (monthFromDay n) (dateFromDay n + k) = n + k := by
  have hm := monthFromDay_range n
  have h1 : monthFromDay n / 12 = 0 := by omega
  have h2 : monthFromDay n % 12 = monthFromDay n := by omega
  unfold makeDay dateFromDay dayWithinYear
  simp only [h1, h2, add_zero]
  omega

theorem weekThursday_eq (n : Int) :
    weekThursday n = n + 4 - (if weekDay n = 0 then 7 else weekDay n) := by
  unfold weekThursday weekMonday weekDay
  split_ifs <;> omega

theorem ceilDiv_succ (x : Int) : ceilDiv (x + 1) 7 = x / 7 + 1 := by
  unfold ceilDiv
  omega

/-- For a date whose own year and whose week's Thursday both lie outside the
years 0 to 99, `getWeekNumber` is the ISO-8601 week number. -/
theorem getWeekNumber_eq_isoWeek (n : Int)
    (h1 : ¬ (0 ≤ yearFromDay n ∧ yearFromDay n ≤ 99))
    (h2 : ¬ (0 ≤ yearFromDay (weekThursday n) ∧ yearFromDay (weekThursday n) ≤ 99)) :
    getWeekNumber n = isoWeek n := by
  have e1 : dateUTC (yearFromDay n) (monthFromDay n) (dateFromDay n) = n := by
    unfold dateUTC fullYear
    rw [if_neg h1]
    simpa using makeDay_fields n 0
  unfold getWeekNumber
  simp only [e1]
  have e2 : makeDay (yearFromDay n) (monthFromDay n)
      (dateFromDay n + 4 - (if weekDay n = 0 then 7 else weekDay n)) = weekThursday n := by
    rw [weekThursday_eq, add_sub_assoc, makeDay_fields]
    omega
  rw [e2]
  have e3 : dateUTC (yearFromDay (weekThursday n)) 0 1 = dayFromYear (yearFromDay (weekThursday n)) := by
    unfold dateUTC fullYear
    rw [if_neg h2]
    unfold makeDay monthStart
    simp
  rw [e3, ceilDiv_succ]
  unfold isoWeek ordinalDay dayWithinYear
  simp

theorem isoWeek_range (n : Int) : 1 ≤ isoWeek n ∧ isoWeek n ≤ 53 := by
  have h1 := dayWithinYear_nonneg (weekThursday n)
  have h2 := dayWithinYear_lt (weekThursday n)
  unfold isoWeek ordinalDay
  split_ifs at h2 <;> omega

/-- The days of one Monday-to-Sunday week share their Thursday. -/
theorem weekThursday_of_weekMonday {a b : Int} (h : weekMonday a = weekMonday b) :
    weekThursday a = weekThursday b := by
  unfold weekThursday
  rw [h]

theorem isoWeekKey_of_weekMonday {a b : Int} (h : weekMonday a = weekMonday b) :
    isoWeekKey a = isoWeekKey b := by
  unfold isoWeekKey isoWeekYear isoWeek
  rw [weekThursday_of_weekMonday h]

theorem weekThursday_sunday_succ (n : Int) (h : weekDay n = 0) :
    weekThursday (n + 1) = weekThursday n + 7 := by
  unfold weekThursday weekMonday weekDay at *
  omega

/-- The ISO week number changes from a Sunday to the Monday after it. -/
theorem isoWeek_sunday_succ (n : Int) (h : weekDay n = 0) : isoWeek (n + 1) ≠ isoWeek n := by
  have ht := weekThursday_sunday_succ n h
  unfold isoWeek ordinalDay
  rw [ht]
  generalize weekThursday n = t
  have a1 := yearFromDay_le t
  have a2 := yearFromDay_lt t
  have a3 := dayFromYear_succ (yearFromDay t)
  have a4 := dayFromYear_succ (yearFromDay t + 1)
  by_cases hy : t + 7 < dayFromYear (yearFromDay t + 1)
  · have e : yearFromDay (t + 7) = yearFromDay t :=
      yearFromDay_unique (t + 7) (yearFromDay t) (by omega) hy
    unfold dayWithinYear
    rw [e]
    omega
  · have e : yearFromDay (t + 7) = yearFromDay t + 1 := by
      apply yearFromDay_unique
      · omega
      · rw [a4]
        split_ifs <;> omega
    unfold dayWithinYear
    rw [e]
    split_ifs at a3 <;> omega

/-- Two days have the same ISO week key exactly when they lie in the same
Monday-to-Sunday week. -/
theorem isoWeekKey_eq_iff (a b : Int) : isoWeekKey a = isoWeekKey b ↔ weekMonday a = weekMonday b := by
  constructor
  · intro h
    unfold isoWeekKey isoWeekYear isoWeek ordinalDay dayWithinYear at h
    have hy : yearFromDay (weekThursday a) = yearFromDay (weekThursday b) := congrArg Prod.fst h
    have hw := congrArg Prod.snd h
    simp only at hw
    rw [hy] at hw
    have ha : weekDay (weekThursday a) = 4 := by
      unfold weekThursday weekMonday weekDay
      omega
    have hb : weekDay (weekThursday b) = 4 := by
      unfold weekThursday weekMonday weekDay
      omega
    have : weekThursday a = weekThursday b := by
      unfold weekDay at ha hb
      omega
    unfold weekThursday at this
    omega
  · exact isoWeekKey_of_weekMonday

/-! ### C3: `getWeekNumber` and the ISO-8601 week number -/

/-- C3 (the code at the failing input): for 1 January of the year 100, a
Friday whose week has its Thursday in the year 99, `getWeekNumber` returns
-99085, although the ISO-8601 week number is 53; for 31 December of the year
99 it returns 52 where ISO-8601 says 53.  `Date.UTC` reads a year from 0 to 99
as 1900 + year.  The first date is what `new Date("0100-01-01")` denotes. -/
theorem getWeekNumber_first_century :
    parseDatum digitRuntime "0100-01-01" = some (some (makeDay 100 0 1)) ∧
    getWeekNumber (makeDay 100 0 1) = -99085 ∧ isoWeek (makeDay 100 0 1) = 53 ∧
    getWeekNumber (makeDay 99 11 31) = 52 ∧ isoWeek (makeDay 99 11 31) = 53 := by
  decide

/-! ### C4: the weekly bucket key -/

/-- C4 (the code at the failing input): Monday 30 December 2024 and Wednesday
1 January 2025 lie in one ISO week, yet their volumes land in the two buckets
`2024-W1` and `2025-W1`; Monday 1 January 2024 lies in another ISO week than
30 December 2024, yet both volumes are summed in the bucket `2024-W1`. -/
theorem prepareDashboard_year_boundary :
    specDate (mkRow .Chest 2 "ja" "30/12/2024" "1500") = some (makeDay 2024 11 30) ∧
    specDate (mkRow .Chest 3 "ja" "01/01/2025" "1000") = some (makeDay 2025 0 1) ∧
    specDate (mkRow .Chest 4 "ja" "01/01/2024" "7") = some (makeDay 2024 0 1) ∧
    isoWeekKey (makeDay 2024 11 30) = isoWeekKey (makeDay 2025 0 1) ∧
    (prepareDashboard digitRuntime
        [mkRow .Chest 2 "ja" "30/12/2024" "1500",
         mkRow .Chest 3 "ja" "01/01/2025" "1000"]).volumeAt .Chest (some 2024, some 1)
      = some 1500 ∧
    (prepareDashboard digitRuntime
        [mkRow .Chest 2 "ja" "30/12/2024" "1500",
         mkRow .Chest 3 "ja" "01/01/2025" "1000"]).volumeAt .Chest (some 2025, some 1)
      = some 1000 ∧
    isoWeekKey (makeDay 2024 0 1) ≠ isoWeekKey (makeDay 2024 11 30) ∧
    (prepareDashboard digitRuntime
        [mkRow .Chest 4 "ja" "01/01/2024" "7",
         mkRow .Chest 2 "ja" "30/12/2024" "1500"]).volumeAt .Chest (some 2024, some 1)
      = some 1507 := by
  refine ⟨by decide, by decide, by decide, by decide, by decide!, by decide!, by decide,
    by decide!⟩

/-! ### C1: the next session within the current group -/

theorem head?_filter_of_pairwise {α : Type} (R : α → α → Prop) (p : α → Bool) (l : List α)
    (h : l.Pairwise R) (c : α) (hc : (l.filter p).head? = some c) :
    c ∈ l ∧ p c = true ∧ ∀ w ∈ l, p w = true → w = c ∨ R c w := by
  induction l with
  | nil => simp at hc
  | cons x xs ih =>
    rw [List.pairwise_cons] at h
    by_cases hx : p x = true
    · rw [List.filter_cons_of_pos hx] at hc
      simp only [List.head?_cons, Option.some.injEq] at hc
      subst hc
      refine ⟨List.mem_cons_self _ _, hx, ?_⟩
      intro w hw _
      rcases List.mem_cons.1 hw with rfl | hw
      · exact Or.inl rfl
      · exact Or.inr (h.1 w hw)
    · rw [List.filter_cons_of_neg hx] at hc
      obtain ⟨h1, h2, h3⟩ := ih h.2 hc
      refine ⟨List.mem_cons_of_mem _ h1, h2, ?_⟩
      intro w hw hpw
      rcases List.mem_cons.1 hw with rfl | hw
      · exact absurd hpw hx
      · exact h3 w hw hpw

/-- C1 (counterexample): with a Legs row 2 whose completion cell is blank and
a Legs row 3 marked `nej`, the specification's next session is row 2 (blank
is not `ja`, so the session is uncompleted), while `updateWorkoutView` selects
row 3. -/
theorem updateWorkoutView_skips_blank_cell :
    (updateWorkoutView
        (stateWith [mkRow .Legs 2 "" "" "", mkRow .Legs 3 "nej" "" ""] 2)).nextWorkoutData
      = some (mkRow .Legs 3 "nej" "" "") ∧
    specNextInGroup [mkRow .Legs 2 "" "" "", mkRow .Legs 3 "nej" "" ""] .Legs
      = some (mkRow .Legs 2 "" "" "") := by
  decide

/-- C1 (amended): for a collection in which the rows of one group stand in
ascending `originalRowIndex` order (the order `fetchSheet` produces) and a
current group `g`, `updateWorkoutView` selects nothing exactly when no row of
`g` has a completion cell reading `nej` (in any letter case), and otherwise
selects the row of `g` reading `nej` with the smallest `originalRowIndex`. -/
theorem updateWorkoutView_selects_first_nej (s : AppState) (g : WorkoutType)
    (hg : workoutGroupOrder[s.currentWorkoutGroupIndex]? = some g)
    (hrows : s.allWorkoutsData.Pairwise
      (fun a b => a.workoutType = b.workoutType → a.originalRowIndex < b.originalRowIndex)) :
    ((updateWorkoutView s).nextWorkoutData = none ↔
        ∀ w ∈ s.allWorkoutsData, ¬ (w.workoutType = g ∧ completedIs w "nej" = true)) ∧
    ∀ c, (updateWorkoutView s).nextWorkoutData = some c →
        c ∈ s.allWorkoutsData ∧ c.workoutType = g ∧ completedIs c "nej" = true ∧
        ∀ w ∈ s.allWorkoutsData, w.workoutType = g → completedIs w "nej" = true →
          c.originalRowIndex ≤ w.originalRowIndex := by
  unfold updateWorkoutView
  simp only [hg]
  constructor
  · rw [List.head?_eq_none_iff, List.filter_eq_nil_iff]
    constructor
    · intro h w hw hc
      exact h w hw (by simp [hc.1, hc.2])
    · intro h w hw hc
      simp only [Bool.and_eq_true, beq_iff_eq, Option.some.injEq] at hc
      exact h w hw hc
  · intro c hc
    obtain ⟨h1, h2, h3⟩ := head?_filter_of_pairwise _ _ _ hrows c hc
    simp only [Bool.and_eq_true, beq_iff_eq, Option.some.injEq] at h2
    refine ⟨h1, h2.1, h2.2, ?_⟩
    intro w hw hwg hwn
    rcases h3 w hw (by simp [hwg, hwn]) with rfl | hlt
    · exact le_refl _
    · exact le_of_lt (hlt (h2.1.trans hwg.symm))

/-- C1 (witness): Legs rows 2 (`ja`), 3 and 4 (`nej`) with Legs current. -/
theorem updateWorkoutView_selects_first_nej_witness :
    (updateWorkoutView (stateWith
        [mkRow .Legs 2 "ja" "01/01/2024" "", mkRow .Legs 3 "nej" "" "", mkRow .Legs 4 "nej" "" ""]
        2)).nextWorkoutData = some (mkRow .Legs 3 "nej" "" "") ∧
    ∀ c, (updateWorkoutView (stateWith
        [mkRow .Legs 2 "ja" "01/01/2024" "", mkRow .Legs 3 "nej" "" "", mkRow .Legs 4 "nej" "" ""]
        2)).nextWorkoutData = some c →
      c ∈ [mkRow .Legs 2 "ja" "01/01/2024" "", mkRow .Legs 3 "nej" "" "", mkRow .Legs 4 "nej" "" ""] ∧
      c.workoutType = .Legs ∧ completedIs c "nej" = true ∧
      ∀ w ∈ [mkRow .Legs 2 "ja" "01/01/2024" "", mkRow .Legs 3 "nej" "" "", mkRow .Legs 4 "nej" "" ""],
        w.workoutType = .Legs → completedIs w "nej" = true →
          c.originalRowIndex ≤ w.originalRowIndex :=
  ⟨by decide,
   (updateWorkoutView_selects_first_nej (stateWith
        [mkRow .Legs 2 "ja" "01/01/2024" "", mkRow .Legs 3 "nej" "" "", mkRow .Legs 4 "nej" "" ""]
        2) .Legs (by decide) (by decide)).2⟩

/-! ### C5: skip is a rotation -/

/-- C5: for a current group index in 0..2, `skipWorkout` moves the index to
`(index + 1) % 3` and leaves the session collection untouched; three skips
bring back the index, leave the collection untouched and select the same
session as `updateWorkoutView` selected before them. -/
theorem skipWorkout_rotation (s : AppState) (h : s.currentWorkoutGroupIndex < 3) :
    (skipWorkout s).currentWorkoutGroupIndex = (s.currentWorkoutGroupIndex + 1) % 3 ∧
    (skipWorkout s).allWorkoutsData = s.allWorkoutsData ∧
    (skipWorkout (skipWorkout (skipWorkout s))).currentWorkoutGroupIndex
      = s.currentWorkoutGroupIndex ∧
    (skipWorkout (skipWorkout (skipWorkout s))).allWorkoutsData = s.allWorkoutsData ∧
    (skipWorkout (skipWorkout (skipWorkout s))).nextWorkoutData
      = (updateWorkoutView s).nextWorkoutData := by
  have h3 : (((s.currentWorkoutGroupIndex + 1) % 3 + 1) % 3 + 1) % 3
      = s.currentWorkoutGroupIndex := by omega
  refine ⟨rfl, rfl, ?_, rfl, ?_⟩
  · simp only [skipWorkout, updateWorkoutView]
    exact h3
  · simp only [skipWorkout, updateWorkoutView]
    rw [h3]

/-- C5 (witness): three skips from Chest with one open row in each group. -/
theorem skipWorkout_rotation_witness :
    (skipWorkout (skipWorkout (skipWorkout (updateWorkoutView (stateWith
      [mkRow .Chest 2 "nej" "" "", mkRow .Back 2 "nej" "" "", mkRow .Legs 2 "nej" "" ""]
      0))))).nextWorkoutData = some (mkRow .Chest 2 "nej" "" "") ∧
    (skipWorkout (updateWorkoutView (stateWith
      [mkRow .Chest 2 "nej" "" "", mkRow .Back 2 "nej" "" "", mkRow .Legs 2 "nej" "" ""]
      0))).nextWorkoutData = some (mkRow .Back 2 "nej" "" "") ∧
    (skipWorkout (skipWorkout (skipWorkout (updateWorkoutView (stateWith
      [mkRow .Chest 2 "nej" "" "", mkRow .Back 2 "nej" "" "", mkRow .Legs 2 "nej" "" ""]
      0))))).currentWorkoutGroupIndex = 0 :=
  ⟨by decide, by decide,
   (skipWorkout_rotation (updateWorkoutView (stateWith
      [mkRow .Chest 2 "nej" "" "", mkRow .Back 2 "nej" "" "", mkRow .Legs 2 "nej" "" ""]
      0)) (by decide)).2.2.1⟩

/-! ### C8: the weekly-goal percentage -/

theorem addVolumes_acc (rt : Runtime) (w : Workout) (acc : ℚ) :
    addVolumes rt w acc = acc + addVolumes rt w 0 := by
  unfold addVolumes
  generalize w.fields = l
  induction l generalizing acc with
  | nil => simp
  | cons kv rest ih =>
    simp only [List.foldl_cons]
    rw [ih]
    conv_rhs => rw [ih]
    split_ifs <;> ring

theorem addVolumesOf_acc (rt : Runtime) (w : Option Workout) (acc : ℚ) :
    addVolumesOf rt w acc = acc + addVolumesOf rt w 0 := by
  cases w with
  | none => simp [addVolumesOf]
  | some w => exact addVolumes_acc rt w acc

/-- C8: with `V` the volume `showCompletionScreen` adds up from the snapshot
for the current week and `v` the volume of the session just marked complete,
both non-negative, the chart is drawn with the percentage
`min(100, 100 * (V + v) / 12000)` and the volume `V + v`; the percentage lies
in `[0, 100]` and is 100 exactly when `V + v ≥ 12000`. -/
theorem showCompletionScreen_percentage (rt : Runtime) (today : Int) (s : AppState)
    (hV : 0 ≤ snapshotWeekVolume rt today s.allWorkoutsData) (hv : 0 ≤ sessionVolume rt s) :
    (showCompletionScreen rt today s).progressChart
      = some (min 100 (100 * (snapshotWeekVolume rt today s.allWorkoutsData + sessionVolume rt s)
                / 12000),
              snapshotWeekVolume rt today s.allWorkoutsData + sessionVolume rt s) ∧
    0 ≤ min 100 (100 * (snapshotWeekVolume rt today s.allWorkoutsData + sessionVolume rt s)
                / 12000) ∧
    min 100 (100 * (snapshotWeekVolume rt today s.allWorkoutsData + sessionVolume rt s)
                / 12000) ≤ 100 ∧
    (min 100 (100 * (snapshotWeekVolume rt today s.allWorkoutsData + sessionVolume rt s)
                / 12000) = 100 ↔
      12000 ≤ snapshotWeekVolume rt today s.allWorkoutsData + sessionVolume rt s) := by
  have hsum : currentWeekVolume rt today s
      = snapshotWeekVolume rt today s.allWorkoutsData + sessionVolume rt s := by
    unfold currentWeekVolume sessionVolume
    exact addVolumesOf_acc rt _ _
  have hx := add_nonneg hV hv
  unfold showCompletionScreen progressPercentage weeklyGoal
  simp only [hsum]
  generalize snapshotWeekVolume rt today s.allWorkoutsData + sessionVolume rt s = x at *
  have e : x / 12000 * 100 = 100 * x / 12000 := by ring
  rw [e, min_comm (100 * x / 12000) 100]
  refine ⟨rfl, ?_, min_le_left _ _, ?_⟩
  · exact le_min (by norm_num) (by positivity)
  · rw [min_eq_left_iff]
    constructor
    · intro h
      have := (le_div_iff₀ (by norm_num : (0 : ℚ) < 12000)).1 h
      linarith
    · intro h
      rw [le_div_iff₀ (by norm_num : (0 : ℚ) < 12000)]
      linarith

/-- C8 (witness): today is Wednesday 15 May 2024; the snapshot holds one
completed Chest row dated 13/05/2024 with volume 9000 and the selected row has
volume 1000.  The percentage is 250/3, printed by `toFixed(1)` as 83.3. -/
theorem showCompletionScreen_percentage_witness :
    snapshotWeekVolume digitRuntime (makeDay 2024 4 15)
      [mkRow .Chest 2 "ja" "13/05/2024" "9000", mkRow .Chest 3 "nej" "" "1000"] = 9000 ∧
    sessionVolume digitRuntime
      { stateWith [mkRow .Chest 2 "ja" "13/05/2024" "9000", mkRow .Chest 3 "nej" "" "1000"] 0
        with nextWorkoutData := some (mkRow .Chest 3 "nej" "" "1000") } = 1000 ∧
    (showCompletionScreen digitRuntime (makeDay 2024 4 15)
      { stateWith [mkRow .Chest 2 "ja" "13/05/2024" "9000", mkRow .Chest 3 "nej" "" "1000"] 0
        with nextWorkoutData := some (mkRow .Chest 3 "nej" "" "1000") }).progressChart
      = some (250 / 3, 10000) ∧
    toFixed1 (250 / 3) = 833 := by
  have h := showCompletionScreen_percentage digitRuntime (makeDay 2024 4 15)
    { stateWith [mkRow .Chest 2 "ja" "13/05/2024" "9000", mkRow .Chest 3 "nej" "" "1000"] 0
      with nextWorkoutData := some (mkRow .Chest 3 "nej" "" "1000") } (by decide!) (by decide!)
  refine ⟨by decide!, by decide!, ?_, by decide!⟩
  rw [h.1]
  decide!

/-! ### C9: recording a completion -/

/-- C9 (counterexample): one Chest row marked `nej` is selected and the
write-back answers `success`.  The completion screen is shown, but the row in
the in-memory collection is as before: not completed and without a date. -/
theorem markWorkoutComplete_success_keeps_row :
    (markWorkoutComplete digitRuntime (makeDay 2024 4 15) (WriteBack.json (some "success"))
      { stateWith [mkRow .Chest 2 "nej" "" "1000"] 0
        with nextWorkoutData := some (mkRow .Chest 2 "nej" "" "1000") }).activeView
      = View.completion ∧
    (markWorkoutComplete digitRuntime (makeDay 2024 4 15) (WriteBack.json (some "success"))
      { stateWith [mkRow .Chest 2 "nej" "" "1000"] 0
        with nextWorkoutData := some (mkRow .Chest 2 "nej" "" "1000") }).allWorkoutsData
      = [mkRow .Chest 2 "nej" "" "1000"] ∧
    specCompleted (mkRow .Chest 2 "nej" "" "1000") = false ∧
    specDate (mkRow .Chest 2 "nej" "" "1000") = none := by
  refine ⟨by decide, by decide, by decide, by decide⟩

/-- C9 (amended): `markWorkoutComplete` never changes the in-memory session
collection, the selected session or the current group, whatever the write-back
reports.  With a selected session and a `success` status it draws the
progress chart and shows the completion screen; with any other status or a
transport failure it leaves the view and the chart as they were and enables
the button again. -/
theorem markWorkoutComplete_keeps_sessions (rt : Runtime) (today : Int) (response : WriteBack)
    (s : AppState) :
    (markWorkoutComplete rt today response s).allWorkoutsData = s.allWorkoutsData ∧
    (markWorkoutComplete rt today response s).nextWorkoutData = s.nextWorkoutData ∧
    (markWorkoutComplete rt today response s).currentWorkoutGroupIndex
      = s.currentWorkoutGroupIndex ∧
    (markWorkoutComplete rt today response s).activeView
      = (if s.nextWorkoutData.isSome ∧ response = WriteBack.json (some "success")
          then View.completion else s.activeView) ∧
    (markWorkoutComplete rt today response s).progressChart
      = (if s.nextWorkoutData.isSome ∧ response = WriteBack.json (some "success")
          then some (progressPercentage (currentWeekVolume rt today s),
                     currentWeekVolume rt today s)
          else s.progressChart) ∧
    (markWorkoutComplete rt today response s).completeBtnDisabled
      = (if s.nextWorkoutData.isSome ∧ response ≠ WriteBack.json (some "success")
          then false else true) := by
  unfold markWorkoutComplete showCompletionScreen currentWeekVolume
  cases hn : s.nextWorkoutData with
  | none => simp [hn]
  | some w =>
    by_cases hr : response = WriteBack.json (some "success")
    · simp [hn, hr]
    · simp [hn, hr]

/-! ### The aggregation of `prepareDashboard` in closed form -/

theorem objGet_objSet_same {κ ν : Type} [DecidableEq κ] (o : List (κ × ν)) (k : κ) (v : ν) :
    objGet (objSet o k v) k = some v := by
  induction o with
  | nil => simp [objSet, objGet]
  | cons e rest ih =>
    obtain ⟨k', v'⟩ := e
    by_cases h : k' = k
    · simp [objSet, objGet, h]
    · simp [objSet, objGet, h, ih]

theorem objGet_objSet_other {κ ν : Type} [DecidableEq κ] (o : List (κ × ν)) (k k' : κ) (v : ν)
    (hk : k' ≠ k) : objGet (objSet o k v) k' = objGet o k' := by
  induction o with
  | nil => simp [objSet, objGet, Ne.symm hk]
  | cons e rest ih =>
    obtain ⟨k₀, v₀⟩ := e
    by_cases h : k₀ = k
    · subst h
      simp [objSet, objGet, Ne.symm hk]
    · by_cases h2 : k₀ = k'
      · subst h2
        simp [objSet, objGet, h]
      · simp [objSet, objGet, h, h2, ih]

theorem parseDatum_isSome (rt : Runtime) (field : String) :
    (parseDatum rt field).isSome = (includes field '/' || includes field '-') := by
  unfold parseDatum
  by_cases h1 : includes field '/' = true
  · simp [h1]
  · by_cases h2 : includes field '-' = true
    · simp [h1, h2]
    · simp [h1, h2]

theorem countAt_dashboardStep (rt : Runtime) (acc : Dashboard) (w : Workout) (g : WorkoutType) :
    (dashboardStep rt acc w).countAt g =
      if w.workoutType = g ∧ (weekKeyOf rt w).isSome = true then
        some ((acc.countAt g).getD 0 + 1)
      else acc.countAt g := by
  unfold dashboardStep weekKeyOf Dashboard.countAt
  cases hp : parseDatum rt ((w.get "Datum").getD "") with
  | none => simp
  | some date =>
    have hc : objGet
        (objSet
          (if (objGet acc.exerciseCounts w.workoutType).getD 0 = 0 then
            objSet acc.exerciseCounts w.workoutType 0 else acc.exerciseCounts)
          w.workoutType
          ((objGet
            (if (objGet acc.exerciseCounts w.workoutType).getD 0 = 0 then
              objSet acc.exerciseCounts w.workoutType 0 else acc.exerciseCounts)
            w.workoutType).getD 0 + 1)) g
        = if w.workoutType = g then some ((objGet acc.exerciseCounts g).getD 0 + 1)
          else objGet acc.exerciseCounts g := by
      by_cases hg : w.workoutType = g
      · subst hg
        rw [objGet_objSet_same, if_pos rfl]
        by_cases h0 : (objGet acc.exerciseCounts w.workoutType).getD 0 = 0
        · rw [if_pos h0, objGet_objSet_same, h0]
          rfl
        · rw [if_neg h0]
      · rw [objGet_objSet_other _ _ _ _ (Ne.symm hg), if_neg hg]
        by_cases h0 : (objGet acc.exerciseCounts w.workoutType).getD 0 = 0
        · rw [if_pos h0, objGet_objSet_other _ _ _ _ (Ne.symm hg)]
        · rw [if_neg h0]
    simp only [Option.map_some', Option.isSome_some, and_true]
    split_ifs <;> simp_all

theorem countAt_foldl (rt : Runtime) (l : List Workout) (acc : Dashboard) (g : WorkoutType) :
    (l.foldl (dashboardStep rt) acc).countAt g =
      if (l.filter (fun w => decide (w.workoutType = g) && (weekKeyOf rt w).isSome)).length = 0
      then acc.countAt g
      else some ((acc.countAt g).getD 0 +
        (l.filter (fun w => decide (w.workoutType = g) && (weekKeyOf rt w).isSome)).length) := by
  generalize hp : (fun w => decide (w.workoutType = g) && (weekKeyOf rt w).isSome) = p
  have hpw : ∀ w, p w = true ↔ (w.workoutType = g ∧ (weekKeyOf rt w).isSome = true) := by
    intro w
    rw [← hp]
    simp
  induction l generalizing acc with
  | nil => simp
  | cons w rest ih =>
    rw [List.foldl_cons, ih, countAt_dashboardStep]
    by_cases hw : w.workoutType = g ∧ (weekKeyOf rt w).isSome = true
    · rw [if_pos hw, List.filter_cons_of_pos ((hpw w).2 hw)]
      simp only [List.length_cons, Option.getD_some]
      by_cases h0 : (List.filter p rest).length = 0
      · simp [h0]
      · simp only [h0, if_false, Nat.succ_ne_zero, Option.some.injEq]
        omega
    · rw [if_neg hw, List.filter_cons_of_neg (fun h => hw ((hpw w).1 h))]

theorem filter_completed_counted (rt : Runtime) (all : List Workout) (g : WorkoutType) :
    (all.filter completedWithDate).filter
        (fun w => decide (w.workoutType = g) && (weekKeyOf rt w).isSome)
      = countedSessions all g := by
  unfold countedSessions
  rw [List.filter_filter]
  apply List.filter_congr
  intro w _
  unfold weekKeyOf
  rw [Option.isSome_map', parseDatum_isSome]
  cases decide (w.workoutType = g) <;> cases completedWithDate w <;> simp

/-- The count `prepareDashboard` leaves for a group is the number of its
counted sessions; the entry is missing when there is none. -/
theorem countAt_prepareDashboard (rt : Runtime) (all : List Workout) (g : WorkoutType) :
    (prepareDashboard rt all).countAt g =
      if (countedSessions all g).length = 0 then none
      else some (countedSessions all g).length := by
  unfold prepareDashboard
  simp only
  rw [countAt_foldl, filter_completed_counted]
  simp [Dashboard.countAt, objGet]

theorem volumeAt_dashboardStep (rt : Runtime) (acc : Dashboard) (w : Workout) (g : WorkoutType)
    (k : WeekKey) :
    (dashboardStep rt acc w).volumeAt g k =
      if w.workoutType = g ∧ 0 < addVolumes rt w 0 ∧ weekKeyOf rt w = some k then
        some ((acc.volumeAt g k).getD 0 + addVolumes rt w 0)
      else acc.volumeAt g k := by
  unfold dashboardStep weekKeyOf Dashboard.volumeAt
  cases hp : parseDatum rt ((w.get "Datum").getD "") with
  | none => simp
  | some date =>
    simp only [Option.map_some', Option.some.injEq]
    by_cases hv : 0 < addVolumes rt w 0
    · simp only [hv, if_true, true_and]
      by_cases hg : w.workoutType = g
      · subst hg
        simp only [objGet_objSet_same, Option.some_bind, true_and]
        by_cases hk : (getFullYear date, getWeekNumberOf date) = k
        · subst hk
          rw [objGet_objSet_same, if_pos rfl]
          cases ho : objGet acc.weeklyVolume w.workoutType with
          | none => simp [objGet_objSet_same, objGet]
          | some inner => simp [ho]
        · rw [objGet_objSet_other _ _ _ _ (Ne.symm hk), if_neg hk]
          cases ho : objGet acc.weeklyVolume w.workoutType with
          | none => simp [objGet_objSet_same, objGet]
          | some inner => simp [ho]
      · rw [objGet_objSet_other _ _ _ _ (Ne.symm hg)]
        simp only [hg, false_and, if_false]
        by_cases ho : (objGet acc.weeklyVolume w.workoutType).isNone = true
        · rw [if_pos ho, objGet_objSet_other _ _ _ _ (Ne.symm hg)]
        · rw [if_neg ho]
    · simp [hv]

theorem volumeAt_foldl (rt : Runtime) (l : List Workout) (acc : Dashboard) (g : WorkoutType)
    (k : WeekKey) :
    (l.foldl (dashboardStep rt) acc).volumeAt g k =
      if (l.filter (fun w => decide (w.workoutType = g) &&
            (decide (0 < addVolumes rt w 0) && decide (weekKeyOf rt w = some k)))).length = 0
      then acc.volumeAt g k
      else some ((acc.volumeAt g k).getD 0 +
        ((l.filter (fun w => decide (w.workoutType = g) &&
            (decide (0 < addVolumes rt w 0) && decide (weekKeyOf rt w = some k)))).map
          (fun w => addVolumes rt w 0)).sum) := by
  generalize hp : (fun w => decide (w.workoutType = g) &&
      (decide (0 < addVolumes rt w 0) && decide (weekKeyOf rt w = some k))) = p
  have hpw : ∀ w, p w = true ↔
      (w.workoutType = g ∧ 0 < addVolumes rt w 0 ∧ weekKeyOf rt w = some k) := by
    intro w
    rw [← hp]
    simp
  induction l generalizing acc with
  | nil => simp
  | cons w rest ih =>
    rw [List.foldl_cons, ih, volumeAt_dashboardStep]
    by_cases hw : w.workoutType = g ∧ 0 < addVolumes rt w 0 ∧ weekKeyOf rt w = some k
    · rw [if_pos hw, List.filter_cons_of_pos ((hpw w).2 hw)]
      simp only [List.length_cons, Option.getD_some, List.map_cons, List.sum_cons]
      by_cases h0 : (List.filter p rest).length = 0
      · have hnil : List.filter p rest = [] := List.length_eq_zero.1 h0
        simp [hnil]
      · simp only [h0, if_false, Nat.succ_ne_zero, Option.some.injEq]
        ring
    · rw [if_neg hw, List.filter_cons_of_neg (fun h => hw ((hpw w).1 h))]

theorem filter_completed_bucket (rt : Runtime) (all : List Workout) (g : WorkoutType)
    (k : WeekKey) :
    (all.filter completedWithDate).filter (fun w => decide (w.workoutType = g) &&
        (decide (0 < addVolumes rt w 0) && decide (weekKeyOf rt w = some k)))
      = bucketSessions rt all g k := by
  unfold bucketSessions countedSessions
  rw [List.filter_filter, List.filter_filter]
  apply List.filter_congr
  intro w _
  have hs := parseDatum_isSome rt ((w.get "Datum").getD "")
  by_cases hk : weekKeyOf rt w = some k
  · have : (parseDatum rt ((w.get "Datum").getD "")).isSome = true := by
      unfold weekKeyOf at hk
      cases hq : parseDatum rt ((w.get "Datum").getD "") with
      | none => simp [hq] at hk
      | some d => rfl
    rw [hs] at this
    simp only [hk, this, decide_True, Bool.and_true]
    cases decide (w.workoutType = g) <;> cases completedWithDate w <;> simp
  · simp [hk]

/-- The weekly entry `prepareDashboard` leaves for a group and a key is the
sum of the volumes of the bucket's sessions; the entry is missing when the
bucket has no session. -/
theorem volumeAt_prepareDashboard (rt : Runtime) (all : List Workout) (g : WorkoutType)
    (k : WeekKey) :
    (prepareDashboard rt all).volumeAt g k =
      if (bucketSessions rt all g k).length = 0 then none
      else some (((bucketSessions rt all g k).map (fun w => addVolumes rt w 0)).sum) := by
  unfold prepareDashboard
  simp only
  rw [volumeAt_foldl, filter_completed_bucket]
  simp [Dashboard.volumeAt, objGet]

theorem countedSessions_perm {l₁ l₂ : List Workout} (h : l₁.Perm l₂) (g : WorkoutType) :
    (countedSessions l₁ g).Perm (countedSessions l₂ g) :=
  h.filter _

theorem bucketSessions_perm (rt : Runtime) {l₁ l₂ : List Workout} (h : l₁.Perm l₂)
    (g : WorkoutType) (k : WeekKey) :
    (bucketSessions rt l₁ g k).Perm (bucketSessions rt l₂ g k) :=
  (countedSessions_perm h g).filter _

/-! ### C6: the aggregation does not depend on the order of the sessions -/

/-- C6: permuting the session list changes neither any entry
`weeklyVolume[group][key]` (present or missing, and its sum of exact volumes)
nor any entry `exerciseCounts[group]`. -/
theorem prepareDashboard_perm (rt : Runtime) (l₁ l₂ : List Workout) (h : l₁.Perm l₂) :
    (∀ g k, (prepareDashboard rt l₁).volumeAt g k = (prepareDashboard rt l₂).volumeAt g k) ∧
    (∀ g, (prepareDashboard rt l₁).countAt g = (prepareDashboard rt l₂).countAt g) := by
  constructor
  · intro g k
    have hb := bucketSessions_perm rt h g k
    rw [volumeAt_prepareDashboard, volumeAt_prepareDashboard, hb.length_eq,
      (hb.map (fun w => addVolumes rt w 0)).sum_eq]
  · intro g
    have hc := countedSessions_perm h g
    rw [countAt_prepareDashboard, countAt_prepareDashboard, hc.length_eq]

/-- C6 (witness): two Chest sessions of one week and a Legs session, in two
orders. -/
theorem prepareDashboard_perm_witness :
    (prepareDashboard digitRuntime
        [mkRow .Chest 2 "ja" "13/05/2024" "1500", mkRow .Legs 2 "ja" "14/05/2024" "700",
         mkRow .Chest 3 "ja" "15/05/2024" "1000"]).volumeAt .Chest (some 2024, some 20)
      = some 2500 ∧
    (∀ g k, (prepareDashboard digitRuntime
        [mkRow .Chest 2 "ja" "13/05/2024" "1500", mkRow .Legs 2 "ja" "14/05/2024" "700",
         mkRow .Chest 3 "ja" "15/05/2024" "1000"]).volumeAt g k
      = (prepareDashboard digitRuntime
        [mkRow .Chest 3 "ja" "15/05/2024" "1000", mkRow .Chest 2 "ja" "13/05/2024" "1500",
         mkRow .Legs 2 "ja" "14/05/2024" "700"]).volumeAt g k) :=
  ⟨by decide!,
   (prepareDashboard_perm digitRuntime
      [mkRow .Chest 2 "ja" "13/05/2024" "1500", mkRow .Legs 2 "ja" "14/05/2024" "700",
       mkRow .Chest 3 "ja" "15/05/2024" "1000"]
      [mkRow .Chest 3 "ja" "15/05/2024" "1000", mkRow .Chest 2 "ja" "13/05/2024" "1500",
       mkRow .Legs 2 "ja" "14/05/2024" "700"]
      (by decide)).1⟩

/-! ### C10: session counts -/

/-- C10 (counterexample): a completed Legs session dated `32/13/2024`, whose
components name no calendar day, and one dated `foo/bar` are not sessions
with a resolvable date, yet `prepareDashboard` counts both. -/
theorem prepareDashboard_counts_invalid_date :
    (prepareDashboard digitRuntime [mkRow .Legs 2 "ja" "32/13/2024" "7"]).countAt .Legs
      = some 1 ∧
    specSessionCount [mkRow .Legs 2 "ja" "32/13/2024" "7"] .Legs = 0 ∧
    (prepareDashboard digitRuntime [mkRow .Legs 2 "ja" "foo/bar" "7"]).countAt .Legs
      = some 1 ∧
    specSessionCount [mkRow .Legs 2 "ja" "foo/bar" "7"] .Legs = 0 := by
  refine ⟨by decide!, by decide, by decide!, by decide⟩

theorem bucketSessions_filter_positive (rt : Runtime) (all : List Workout) (g : WorkoutType)
    (k : WeekKey) :
    bucketSessions rt (all.filter (fun w => decide (0 < addVolumes rt w 0))) g k
      = bucketSessions rt all g k := by
  unfold bucketSessions countedSessions
  simp only [List.filter_filter]
  apply List.filter_congr
  intro w _
  cases decide (0 < addVolumes rt w 0) <;> simp

/-- C10 (amended): `exerciseCounts[g]` is the number of sessions of `g` whose
completion cell reads `ja` (in any letter case) and whose date cell is not
blank and contains a `/` or a `-`, whether or not the cell names a calendar
day and whatever the session's volume; the entry is missing when there is no
such session.  Sessions without positive total volume add nothing to the
weekly index: dropping them leaves every weekly entry as it is. -/
theorem prepareDashboard_counts (rt : Runtime) (all : List Workout) (g : WorkoutType) :
    (prepareDashboard rt all).countAt g =
      (if (countedSessions all g).length = 0 then none
       else some (countedSessions all g).length) ∧
    (∀ k, (prepareDashboard rt (all.filter (fun w => decide (0 < addVolumes rt w 0)))).volumeAt g k
      = (prepareDashboard rt all).volumeAt g k) := by
  refine ⟨countAt_prepareDashboard rt all g, ?_⟩
  intro k
  rw [volumeAt_prepareDashboard, volumeAt_prepareDashboard, bucketSessions_filter_positive]

/-! ### C2: the initial group choice -/

/-- C2 (the code at the failing input): the Back sheet has no rows, so Back
has zero completed sessions, while Chest and Legs have completed sessions on
different dates.  Reading `group[0].workoutType` of the empty group throws:
the load ends in the error view and the current group index stays at its
previous value 0 (Chest) instead of becoming 1 (Back). -/
theorem handleFetchData_empty_group :
    (handleFetchData digitRuntime
      (some ([mkRow .Chest 2 "ja" "01/01/2024" "1500"], [],
             [mkRow .Legs 2 "ja" "02/01/2024" "1000"]))
      (stateWith [] 0)).activeView = View.error ∧
    (handleFetchData digitRuntime
      (some ([mkRow .Chest 2 "ja" "01/01/2024" "1500"], [],
             [mkRow .Legs 2 "ja" "02/01/2024" "1000"]))
      (stateWith [] 0)).currentWorkoutGroupIndex = 0 ∧
    lastCompleted digitRuntime [mkRow .Chest 2 "ja" "01/01/2024" "1500"]
      = some (some (makeDay 2024 0 1)) ∧
    lastCompleted digitRuntime [mkRow .Legs 2 "ja" "02/01/2024" "1000"]
      = some (some (makeDay 2024 0 2)) ∧
    lastCompleted digitRuntime [] = none := by
  refine ⟨by decide!, by decide!, by decide!, by decide!, by decide⟩

theorem sorted_head_never_completed (c b l : List Workout × Option (Option Int)) :
    (c.2 = none → b.2 ≠ none → l.2 ≠ none →
      (arraySort (fun x y => compareLastDates x.2 y.2) [c, b, l]).head? = some c) ∧
    (b.2 = none → c.2 ≠ none → l.2 ≠ none →
      (arraySort (fun x y => compareLastDates x.2 y.2) [c, b, l]).head? = some b) ∧
    (l.2 = none → c.2 ≠ none → b.2 ≠ none →
      (arraySort (fun x y => compareLastDates x.2 y.2) [c, b, l]).head? = some l) := by
  obtain ⟨cg, cd⟩ := c
  obtain ⟨bg, bd⟩ := b
  obtain ⟨lg, ld⟩ := l
  refine ⟨?_, ?_, ?_⟩
  · intro hc hb hl
    cases cd with
    | some x => simp at hc
    | none =>
      cases bd with
      | none => simp at hb
      | some y =>
        cases ld with
        | none => simp at hl
        | some z =>
          simp only [arraySort, sortInsert, compareLastDates]
          split_ifs <;> simp [sortInsert]
  · intro hb hc hl
    cases bd with
    | some x => simp at hb
    | none =>
      cases cd with
      | none => simp at hc
      | some y =>
        cases ld with
        | none => simp at hl
        | some z => simp [arraySort, sortInsert, compareLastDates]
  · intro hl hc hb
    cases ld with
    | some x => simp at hl
    | none =>
      cases cd with
      | none => simp at hc
      | some y =>
        cases bd with
        | none => simp at hb
        | some z => simp [arraySort, sortInsert, compareLastDates]

theorem handleFetchData_of_head (rt : Runtime) (chestData backData legsData : List Workout)
    (s : AppState) (G : List Workout) (d : Option (Option Int)) (w : Workout)
    (rest : List Workout)
    (hhead : (arraySort (fun x y => compareLastDates x.2 y.2)
      [(chestData, lastCompleted rt chestData), (backData, lastCompleted rt backData),
       (legsData, lastCompleted rt legsData)]).head? = some (G, d))
    (hG : G = w :: rest) :
    (handleFetchData rt (some (chestData, backData, legsData)) s).activeView = View.home ∧
    (handleFetchData rt (some (chestData, backData, legsData)) s).currentWorkoutGroupIndex
      = groupIndex w.workoutType := by
  unfold handleFetchData
  simp [hhead, hG]

/-- When exactly one of the three sheets has no completed session with a date
and that sheet has at least one row, `handleFetchData` ends in the home view
with the current group set to the type of that sheet's first row. -/
theorem handleFetchData_never_completed_first (rt : Runtime)
    (chestData backData legsData : List Workout) (s : AppState) (w : Workout)
    (rest : List Workout) :
    (lastCompleted rt chestData = none → lastCompleted rt backData ≠ none →
      lastCompleted rt legsData ≠ none → chestData = w :: rest →
      (handleFetchData rt (some (chestData, backData, legsData)) s).activeView = View.home ∧
      (handleFetchData rt (some (chestData, backData, legsData)) s).currentWorkoutGroupIndex
        = groupIndex w.workoutType) ∧
    (lastCompleted rt backData = none → lastCompleted rt chestData ≠ none →
      lastCompleted rt legsData ≠ none → backData = w :: rest →
      (handleFetchData rt (some (chestData, backData, legsData)) s).activeView = View.home ∧
      (handleFetchData rt (some (chestData, backData, legsData)) s).currentWorkoutGroupIndex
        = groupIndex w.workoutType) ∧
    (lastCompleted rt legsData = none → lastCompleted rt chestData ≠ none →
      lastCompleted rt backData ≠ none → legsData = w :: rest →
      (handleFetchData rt (some (chestData, backData, legsData)) s).activeView = View.home ∧
      (handleFetchData rt (some (chestData, backData, legsData)) s).currentWorkoutGroupIndex
        = groupIndex w.workoutType) := by
  have h := sorted_head_never_completed (chestData, lastCompleted rt chestData)
    (backData, lastCompleted rt backData) (legsData, lastCompleted rt legsData)
  refine ⟨?_, ?_, ?_⟩
  · intro h1 h2 h3 hw
    exact handleFetchData_of_head rt _ _ _ s _ _ w rest (h.1 h1 h2 h3) hw
  · intro h1 h2 h3 hw
    exact handleFetchData_of_head rt _ _ _ s _ _ w rest (h.2.1 h1 h2 h3) hw
  · intro h1 h2 h3 hw
    exact handleFetchData_of_head rt _ _ _ s _ _ w rest (h.2.2 h1 h2 h3) hw

/-! ### The sort -/

theorem sortInsert_perm {α : Type} (cmp : α → α → Option Int) (x : α) (ys : List α) :
    (sortInsert cmp x ys).Perm (x :: ys) := by
  induction ys with
  | nil => exact List.Perm.refl _
  | cons y ys ih =>
    unfold sortInsert
    split_ifs
    · exact List.Perm.refl _
    · exact ((List.Perm.cons y ih).trans (List.Perm.swap x y ys))

theorem arraySort_perm {α : Type} (cmp : α → α → Option Int) (l : List α) :
    (arraySort cmp l).Perm l := by
  induction l with
  | nil => exact List.Perm.refl _
  | cons x xs ih =>
    unfold arraySort
    exact (sortInsert_perm cmp x _).trans (List.Perm.cons x ih)

theorem sortInsert_pairwise {α : Type} (cmp : α → α → Option Int) (R : α → α → Prop)
    (htotal : ∀ a b, R a b ∨ R b a) (htrans : ∀ a b c, R a b → R b c → R a c)
    (x : α) (ys : List α) (hagree : ∀ y ∈ ys, ((cmp x y).getD 0 ≤ 0 ↔ R x y))
    (hys : ys.Pairwise R) : (sortInsert cmp x ys).Pairwise R := by
  induction ys with
  | nil => simp [sortInsert]
  | cons y ys ih =>
    rw [List.pairwise_cons] at hys
    unfold sortInsert
    by_cases hle : (cmp x y).getD 0 ≤ 0
    · rw [if_pos hle]
      have hxy : R x y := (hagree y (List.mem_cons_self _ _)).1 hle
      refine List.pairwise_cons.2 ⟨?_, List.pairwise_cons.2 hys⟩
      intro z hz
      rcases List.mem_cons.1 hz with rfl | hz
      · exact hxy
      · exact htrans _ _ _ hxy (hys.1 z hz)
    · rw [if_neg hle]
      have hyx : R y x := by
        rcases htotal x y with h | h
        · exact absurd ((hagree y (List.mem_cons_self _ _)).2 h) hle
        · exact h
      refine List.pairwise_cons.2 ⟨?_, ih (fun z hz => hagree z (List.mem_cons_of_mem _ hz)) hys.2⟩
      intro z hz
      rcases List.mem_cons.1 ((sortInsert_perm cmp x ys).mem_iff.1 hz) with rfl | hz
      · exact hyx
      · exact hys.1 z hz

/-- On a list whose elements the comparator orders as a total preorder `R`
does, `arraySort` returns an arrangement sorted by `R`. -/
theorem arraySort_pairwise {α : Type} (cmp : α → α → Option Int) (R : α → α → Prop)
    (htotal : ∀ a b, R a b ∨ R b a) (htrans : ∀ a b c, R a b → R b c → R a c)
    (l : List α) (hagree : ∀ a ∈ l, ∀ b ∈ l, ((cmp a b).getD 0 ≤ 0 ↔ R a b)) :
    (arraySort cmp l).Pairwise R := by
  induction l with
  | nil => simp [arraySort]
  | cons x xs ih =>
    unfold arraySort
    apply sortInsert_pairwise cmp R htotal htrans
    · intro y hy
      exact hagree x (List.mem_cons_self _ _) y
        (List.mem_cons_of_mem _ ((arraySort_perm cmp xs).mem_iff.1 hy))
    · exact ih (fun a ha b hb =>
        hagree a (List.mem_cons_of_mem _ ha) b (List.mem_cons_of_mem _ hb))

/-! ### The last completion date of a group -/

theorem lastCompleted_foldl_some (rt : Runtime) (group : List Workout) (a : Int)
    (hvalid : ∀ w ∈ group, completedWithDate w = true →
      (specDate w).isSome = true ∧ slashDate rt ((w.get "Datum").getD "") = specDate w) :
    group.foldl (lastCompletedStep rt) (some (some a))
    = some (some (((group.filter completedWithDate).filterMap specDate).foldl max a)) := by
  induction group generalizing a with
  | nil => rfl
  | cons w rest ih =>
    rw [List.foldl_cons]
    have hrest : ∀ w' ∈ rest, completedWithDate w' = true →
        (specDate w').isSome = true ∧ slashDate rt ((w'.get "Datum").getD "") = specDate w' :=
      fun w' hw' => hvalid w' (List.mem_cons_of_mem _ hw')
    by_cases hc : completedWithDate w = true
    · obtain ⟨h1, h2⟩ := hvalid w (List.mem_cons_self _ _) hc
      obtain ⟨d, hd⟩ := Option.isSome_iff_exists.1 h1
      rw [List.filter_cons_of_pos hc, List.filterMap_cons_some hd, List.foldl_cons]
      by_cases hlt : a < d
      · have hstep : lastCompletedStep rt (some (some a)) w = some (some d) := by
          simp [lastCompletedStep, hc, h2, hd, dateGt, hlt]
        rw [hstep, ih d hrest, max_eq_right (le_of_lt hlt)]
      · have hstep : lastCompletedStep rt (some (some a)) w = some (some a) := by
          simp [lastCompletedStep, hc, h2, hd, dateGt, hlt]
        rw [hstep, ih a hrest, max_eq_left (not_lt.1 hlt)]
    · rw [List.filter_cons_of_neg hc]
      have hstep : lastCompletedStep rt (some (some a)) w = some (some a) := by
        simp [lastCompletedStep, hc]
      rw [hstep]
      exact ih a hrest

theorem lastCompleted_eq_max (rt : Runtime) (group : List Workout)
    (hvalid : ∀ w ∈ group, completedWithDate w = true →
      (specDate w).isSome = true ∧ slashDate rt ((w.get "Datum").getD "") = specDate w) :
    lastCompleted rt group
      = (((group.filter completedWithDate).filterMap specDate).max?).map some := by
  unfold lastCompleted
  induction group with
  | nil => rfl
  | cons w rest ih =>
    rw [List.foldl_cons]
    have hrest : ∀ w' ∈ rest, completedWithDate w' = true →
        (specDate w').isSome = true ∧ slashDate rt ((w'.get "Datum").getD "") = specDate w' :=
      fun w' hw' => hvalid w' (List.mem_cons_of_mem _ hw')
    by_cases hc : completedWithDate w = true
    · obtain ⟨h1, h2⟩ := hvalid w (List.mem_cons_self _ _) hc
      obtain ⟨d, hd⟩ := Option.isSome_iff_exists.1 h1
      have hstep : lastCompletedStep rt none w = some (some d) := by
        simp [lastCompletedStep, hc, h2, hd]
      rw [hstep, lastCompleted_foldl_some rt rest d hrest, List.filter_cons_of_pos hc,
        List.filterMap_cons_some hd, List.max?_cons']
      rfl
    · have hstep : lastCompletedStep rt none w = none := by
        simp [lastCompletedStep, hc]
      rw [hstep, List.filter_cons_of_neg hc]
      exact ih hrest

/-- A session whose date cell is blank or absent has no date in the
specification's reading. -/
theorem specDate_of_blank (w : Workout) (h : truthy (w.get "Datum") = false) :
    specDate w = none := by
  unfold specDate
  unfold truthy at h
  cases hg : w.get "Datum" with
  | none => simp [includes]
  | some f =>
    rw [hg] at h
    have hf : f = "" := by simpa using h
    subst hf
    simp [includes]

theorem completed_dates_eq (group : List Workout) :
    (group.filter completedWithDate).filterMap specDate
      = (group.filter specCompleted).filterMap specDate := by
  induction group with
  | nil => rfl
  | cons w rest ih =>
    by_cases hj : completedIs w "ja" = true
    · by_cases ht : truthy (w.get "Datum") = true
      · have h1 : completedWithDate w = true := by simp [completedWithDate, hj, ht]
        have h2 : specCompleted w = true := hj
        rw [List.filter_cons_of_pos h1, List.filter_cons_of_pos h2, List.filterMap_cons,
          List.filterMap_cons, ih]
      · have h1 : ¬ completedWithDate w = true := by simp [completedWithDate, hj, ht]
        have h2 : specCompleted w = true := hj
        have h3 : specDate w = none := specDate_of_blank w (by simpa using ht)
        rw [List.filter_cons_of_neg h1, List.filter_cons_of_pos h2,
          List.filterMap_cons_none h3, ih]
    · have h1 : ¬ completedWithDate w = true := by simp [completedWithDate, hj]
      have h2 : ¬ specCompleted w = true := hj
      rw [List.filter_cons_of_neg h1, List.filter_cons_of_neg h2, ih]

/-- For a group whose completed sessions carry readable dates, the loop of
the code computes the data model's `lastCompletedDate`. -/
theorem lastCompleted_eq_spec (rt : Runtime) (group : List Workout)
    (hvalid : ∀ w ∈ group, completedWithDate w = true →
      (specDate w).isSome = true ∧ slashDate rt ((w.get "Datum").getD "") = specDate w) :
    lastCompleted rt group = (specLastCompletedDate group).map some := by
  rw [lastCompleted_eq_max rt group hvalid, completed_dates_eq]
  rfl

/-! ### The map of last completion dates -/

theorem lastCompletedMap_untouched (rt : Runtime) (groups : List (List Workout))
    (m : List (WorkoutType × Option (Option Int))) (t : WorkoutType)
    (h : ∀ G ∈ groups, ∀ a ∈ G, a.workoutType ≠ t) :
    objGet (groups.foldl (lastCompletedMapStep rt) m) t = objGet m t := by
  induction groups generalizing m with
  | nil => rfl
  | cons G rest ih =>
    rw [List.foldl_cons, ih _ (fun H hH => h H (List.mem_cons_of_mem _ hH))]
    unfold lastCompletedMapStep
    cases G with
    | nil => rfl
    | cons x xs =>
      simp only [List.head?_cons]
      exact objGet_objSet_other _ _ _ _
        (Ne.symm (h (x :: xs) (List.mem_cons_self _ _) x (List.mem_cons_self _ _)))

theorem lastCompletedMap_lookup (rt : Runtime) (groups : List (List Workout))
    (m : List (WorkoutType × Option (Option Int))) (hwf : GroupsByType groups)
    (G : List Workout) (hG : G ∈ groups) (w : Workout) (hw : w ∈ G) :
    objGet (groups.foldl (lastCompletedMapStep rt) m) w.workoutType
      = some (lastCompleted rt G) := by
  induction groups generalizing m with
  | nil => simp at hG
  | cons G₀ rest ih =>
    obtain ⟨hhom, hpair⟩ := hwf
    rw [List.pairwise_cons] at hpair
    rw [List.foldl_cons]
    rcases List.mem_cons.1 hG with rfl | hG'
    · rw [lastCompletedMap_untouched rt rest _ _
        (fun H hH a ha => Ne.symm (hpair.1 H hH w hw a ha))]
      unfold lastCompletedMapStep
      cases G with
      | nil => simp at hw
      | cons x xs =>
        simp only [List.head?_cons]
        rw [hhom (x :: xs) (List.mem_cons_self _ _) x (List.mem_cons_self _ _) w hw]
        exact objGet_objSet_same _ _ _
    · exact ih _ ⟨fun H hH => hhom H (List.mem_cons_of_mem _ hH), hpair.2⟩ hG'

theorem specGroup_eq (groups : List (List Workout)) (hwf : GroupsByType groups)
    (G : List Workout) (hG : G ∈ groups) (w : Workout) (hw : w ∈ G) :
    specGroup groups w.workoutType = G := by
  induction groups with
  | nil => simp at hG
  | cons G₀ rest ih =>
    obtain ⟨hhom, hpair⟩ := hwf
    rw [List.pairwise_cons] at hpair
    unfold specGroup
    rw [List.flatten_cons, List.filter_append]
    rcases List.mem_cons.1 hG with rfl | hG'
    · have h1 : List.filter (fun a => decide (a.workoutType = w.workoutType)) G = G := by
        rw [List.filter_eq_self]
        intro a ha
        simpa using hhom G (List.mem_cons_self _ _) a ha w hw
      have h2 : List.filter (fun a => decide (a.workoutType = w.workoutType)) rest.flatten
          = [] := by
        rw [List.filter_eq_nil_iff]
        intro a ha
        obtain ⟨H, hH, haH⟩ := List.mem_flatten.1 ha
        simpa using Ne.symm (hpair.1 H hH w hw a haH)
      rw [h1, h2, List.append_nil]
    · have h1 : List.filter (fun a => decide (a.workoutType = w.workoutType)) G₀ = [] := by
        rw [List.filter_eq_nil_iff]
        intro a ha
        simpa using hpair.1 G hG' a ha w hw
      rw [h1, List.nil_append]
      exact ih ⟨fun H hH => hhom H (List.mem_cons_of_mem _ hH), hpair.2⟩ hG'

/-- For groups delivered by type with readable dates, the date the comparator
of `findNextWorkout` reads for a session is the `lastCompletedDate` of the
session's group in the data model, and never an `Invalid Date`. -/
theorem codeDate_eq_spec (rt : Runtime) (groups : List (List Workout))
    (hwf : GroupsByType groups) (hdates : DatesReadable rt groups)
    (G : List Workout) (hG : G ∈ groups) (w : Workout) (hw : w ∈ G) :
    (objGet (lastCompletedMap rt groups) w.workoutType).join
      = (specLastCompletedDate (specGroup groups w.workoutType)).map some ∧
    specGroup groups w.workoutType = G := by
  have h1 := lastCompletedMap_lookup rt groups [] hwf G hG w hw
  have h2 := specGroup_eq groups hwf G hG w hw
  unfold lastCompletedMap
  rw [h1, h2, Option.join, Option.some_bind, id, lastCompleted_eq_spec rt G (hdates G hG)]
  exact ⟨rfl, rfl⟩

/-! ### The comparator of `findNextWorkout` against the specification's order -/

theorem typeOrder_eq_groupIndex (t : WorkoutType) : typeOrder t = (groupIndex t : Int) := by
  cases t <;> rfl

theorem groupIndex_injective {a b : WorkoutType} (h : groupIndex a = groupIndex b) : a = b := by
  cases a <;> cases b <;> simp [groupIndex] at h <;> rfl

theorem specPrecedes_total (groups : List (List Workout)) (a b : Workout) :
    specPrecedes groups a b = true ∨ specPrecedes groups b a = true := by
  unfold specPrecedes
  cases specLastCompletedDate (specGroup groups a.workoutType) <;>
    cases specLastCompletedDate (specGroup groups b.workoutType) <;>
    simp <;> omega

theorem specPrecedes_trans (groups : List (List Workout)) (a b c : Workout)
    (h1 : specPrecedes groups a b = true) (h2 : specPrecedes groups b c = true) :
    specPrecedes groups a c = true := by
  unfold specPrecedes at *
  cases ha : specLastCompletedDate (specGroup groups a.workoutType) <;>
    cases hb : specLastCompletedDate (specGroup groups b.workoutType) <;>
    cases hc : specLastCompletedDate (specGroup groups c.workoutType) <;>
    simp [ha, hb, hc] at h1 h2 ⊢ <;> omega

theorem compareWorkouts_agrees (rt : Runtime) (groups : List (List Workout))
    (hwf : GroupsByType groups) (hdates : DatesReadable rt groups)
    (hdist : LastDatesDistinct groups)
    (a : Workout) (ha : a ∈ groups.flatten) (b : Workout) (hb : b ∈ groups.flatten) :
    ((compareWorkouts (lastCompletedMap rt groups) a b).getD 0 ≤ 0 ↔
      specPrecedes groups a b = true) := by
  obtain ⟨Ga, hGa, haG⟩ := List.mem_flatten.1 ha
  obtain ⟨Gb, hGb, hbG⟩ := List.mem_flatten.1 hb
  obtain ⟨ea, ga⟩ := codeDate_eq_spec rt groups hwf hdates Ga hGa a haG
  obtain ⟨eb, gb⟩ := codeDate_eq_spec rt groups hwf hdates Gb hGb b hbG
  unfold compareWorkouts specPrecedes
  simp only [ea, eb]
  have hta := typeOrder_eq_groupIndex a.workoutType
  have htb := typeOrder_eq_groupIndex b.workoutType
  cases hx : specLastCompletedDate (specGroup groups a.workoutType) with
  | none =>
    cases hy : specLastCompletedDate (specGroup groups b.workoutType) with
    | none =>
      simp only [Option.map_none']
      by_cases ht : typeOrder a.workoutType ≠ typeOrder b.workoutType
      · rw [if_pos ht]
        simp
        omega
      · rw [if_neg ht]
        simp
        omega
    | some y => simp
  | some x =>
    cases hy : specLastCompletedDate (specGroup groups b.workoutType) with
    | none => simp
    | some y =>
      simp only [Option.map_some']
      by_cases ht : a.workoutType ≠ b.workoutType
      · rw [if_pos ht]
        have hne : Ga ≠ Gb := by
          intro h
          subst h
          exact ht (hwf.1 Ga hGa a haG b hbG)
        have hsym : Symmetric (fun G H : List Workout =>
            specLastCompletedDate G = none ∨ specLastCompletedDate H = none ∨
              specLastCompletedDate G ≠ specLastCompletedDate H) := by
          intro G H h
          rcases h with h | h | h
          · exact Or.inr (Or.inl h)
          · exact Or.inl h
          · exact Or.inr (Or.inr (Ne.symm h))
        have hd := List.Pairwise.forall hsym hdist hGa hGb hne
        rw [ga] at hx
        rw [gb] at hy
        rw [hx, hy] at hd
        have hxy : x ≠ y := by
          rcases hd with h | h | h
          · simp at h
          · simp at h
          · simpa using h
        simp [dateSub]
        constructor
        · intro h
          left
          omega
        · intro h
          rcases h with h | h
          · omega
          · exact absurd h.1 hxy
      · rw [if_neg ht]
        have hty : a.workoutType = b.workoutType := by
          by_contra h
          exact ht h
        have hxy : x = y := by
          rw [hty, hy] at hx
          exact (Option.some.inj hx).symm
        simp [hxy, hty]

/-! ### C7: selection across all groups -/

/-- C7 (counterexample): (1) a single Chest session whose completion cell is
blank is uncompleted for the specification, so its pool has one element, but
`findNextWorkout` returns `null` at offset 0; (2) with the groups listed as
Legs, Chest, both last completed on 1 January 2024, the open Chest session
strictly precedes the open Legs session in the specification's order, but
`findNextWorkout` returns the Legs session at offset 0. -/
theorem findNextWorkout_differs_from_spec :
    findNextWorkout digitRuntime [[mkRow .Chest 2 "" "" ""]] 0 = none ∧
    specPool [[mkRow .Chest 2 "" "" ""]] = [mkRow .Chest 2 "" "" ""] ∧
    findNextWorkout digitRuntime
      [[mkRow .Legs 2 "ja" "01/01/2024" "", mkRow .Legs 3 "nej" "" ""],
       [mkRow .Chest 2 "ja" "01/01/2024" "", mkRow .Chest 3 "nej" "" ""]] 0
      = some (mkRow .Legs 3 "nej" "" "") ∧
    specPrecedes
      [[mkRow .Legs 2 "ja" "01/01/2024" "", mkRow .Legs 3 "nej" "" ""],
       [mkRow .Chest 2 "ja" "01/01/2024" "", mkRow .Chest 3 "nej" "" ""]]
      (mkRow .Chest 3 "nej" "" "") (mkRow .Legs 3 "nej" "" "") = true ∧
    specPrecedes
      [[mkRow .Legs 2 "ja" "01/01/2024" "", mkRow .Legs 3 "nej" "" ""],
       [mkRow .Chest 2 "ja" "01/01/2024" "", mkRow .Chest 3 "nej" "" ""]]
      (mkRow .Legs 3 "nej" "" "") (mkRow .Chest 3 "nej" "" "") = false := by
  refine ⟨by decide, by decide, by decide!, by decide, by decide⟩

/-- C7 (amended): for groups delivered by type, whose completed sessions have
readable day/month/year dates and whose last completion dates are pairwise
different, and for every offset `k`: `findNextWorkout` returns the `k`-th
element of an arrangement of the pool of sessions whose completion cell reads
`nej` that is sorted by the specification's order (no completed history first,
`lastCompletedDate` ascending, Chest, Back, Legs, `rowIndex` ascending), and
returns `null` exactly when `k` is not less than the size of the pool. -/
theorem findNextWorkout_sorted_pool (rt : Runtime) (groups : List (List Workout)) (k : Nat)
    (hwf : GroupsByType groups) (hdates : DatesReadable rt groups)
    (hdist : LastDatesDistinct groups) :
    ∃ out : List Workout,
      out.Perm (uncompletedWorkouts groups) ∧
      out.Pairwise (fun a b => specPrecedes groups a b = true) ∧
      findNextWorkout rt groups k = out[k]? ∧
      (findNextWorkout rt groups k = none ↔ (uncompletedWorkouts groups).length ≤ k) := by
  have hperm := arraySort_perm (compareWorkouts (lastCompletedMap rt groups))
    (uncompletedWorkouts groups)
  have hmem : ∀ a ∈ uncompletedWorkouts groups, a ∈ groups.flatten :=
    fun a ha => (List.mem_filter.1 ha).1
  have hsorted := arraySort_pairwise (compareWorkouts (lastCompletedMap rt groups))
    (fun a b => specPrecedes groups a b = true) (specPrecedes_total groups)
    (specPrecedes_trans groups) (uncompletedWorkouts groups)
    (fun a ha b hb =>
      compareWorkouts_agrees rt groups hwf hdates hdist a (hmem a ha) b (hmem b hb))
  have hres : findNextWorkout rt groups k
      = (arraySort (compareWorkouts (lastCompletedMap rt groups))
          (uncompletedWorkouts groups))[k]? := by
    unfold findNextWorkout
    simp only
    split_ifs with h0
    · have hnil : uncompletedWorkouts groups = [] := List.length_eq_zero.1 h0
      rw [hnil]
      rfl
    · rfl
  refine ⟨_, hperm, hsorted, hres, ?_⟩
  rw [hres, List.getElem?_eq_none_iff, hperm.length_eq]

/-- C7 (witness): Chest last completed on 5 January 2024, Back on 3 January
2024, Legs never; the open sessions come out as Legs, Back, Chest. -/
theorem findNextWorkout_sorted_pool_witness :
    findNextWorkout digitRuntime
      [[mkRow .Chest 2 "ja" "05/01/2024" "", mkRow .Chest 3 "nej" "" ""],
       [mkRow .Back 2 "ja" "03/01/2024" "", mkRow .Back 3 "nej" "" ""],
       [mkRow .Legs 2 "nej" "" ""]] 0 = some (mkRow .Legs 2 "nej" "" "") ∧
    findNextWorkout digitRuntime
      [[mkRow .Chest 2 "ja" "05/01/2024" "", mkRow .Chest 3 "nej" "" ""],
       [mkRow .Back 2 "ja" "03/01/2024" "", mkRow .Back 3 "nej" "" ""],
       [mkRow .Legs 2 "nej" "" ""]] 1 = some (mkRow .Back 3 "nej" "" "") ∧
    findNextWorkout digitRuntime
      [[mkRow .Chest 2 "ja" "05/01/2024" "", mkRow .Chest 3 "nej" "" ""],
       [mkRow .Back 2 "ja" "03/01/2024" "", mkRow .Back 3 "nej" "" ""],
       [mkRow .Legs 2 "nej" "" ""]] 2 = some (mkRow .Chest 3 "nej" "" "") ∧
    ∃ out : List Workout,
      out.Perm (uncompletedWorkouts
        [[mkRow .Chest 2 "ja" "05/01/2024" "", mkRow .Chest 3 "nej" "" ""],
         [mkRow .Back 2 "ja" "03/01/2024" "", mkRow .Back 3 "nej" "" ""],
         [mkRow .Legs 2 "nej" "" ""]]) ∧
      out.Pairwise (fun a b => specPrecedes
        [[mkRow .Chest 2 "ja" "05/01/2024" "", mkRow .Chest 3 "nej" "" ""],
         [mkRow .Back 2 "ja" "03/01/2024" "", mkRow .Back 3 "nej" "" ""],
         [mkRow .Legs 2 "nej" "" ""]] a b = true) ∧
      findNextWorkout digitRuntime
        [[mkRow .Chest 2 "ja" "05/01/2024" "", mkRow .Chest 3 "nej" "" ""],
         [mkRow .Back 2 "ja" "03/01/2024" "", mkRow .Back 3 "nej" "" ""],
         [mkRow .Legs 2 "nej" "" ""]] 3 = out[3]? ∧
      (findNextWorkout digitRuntime
        [[mkRow .Chest 2 "ja" "05/01/2024" "", mkRow .Chest 3 "nej" "" ""],
         [mkRow .Back 2 "ja" "03/01/2024" "", mkRow .Back 3 "nej" "" ""],
         [mkRow .Legs 2 "nej" "" ""]] 3 = none ↔
        (uncompletedWorkouts
          [[mkRow .Chest 2 "ja" "05/01/2024" "", mkRow .Chest 3 "nej" "" ""],
           [mkRow .Back 2 "ja" "03/01/2024" "", mkRow .Back 3 "nej" "" ""],
           [mkRow .Legs 2 "nej" "" ""]]).length ≤ 3) :=
  ⟨by decide!, by decide!, by decide!,
   findNextWorkout_sorted_pool digitRuntime
      [[mkRow .Chest 2 "ja" "05/01/2024" "", mkRow .Chest 3 "nej" "" ""],
       [mkRow .Back 2 "ja" "03/01/2024" "", mkRow .Back 3 "nej" "" ""],
       [mkRow .Legs 2 "nej" "" ""]] 3
      (by unfold GroupsByType; decide) (by unfold DatesReadable; decide!)
      (by unfold LastDatesDistinct; decide)⟩

/-! ### C11: which sessions count towards the current week -/

theorem snapshotWeekVolume_foldl (rt : Runtime) (today : Int) (l : List Workout) (acc : ℚ) :
    l.foldl (fun acc workout =>
      match parseDatum rt ((workout.get "Datum").getD "") with
      | some (some n) =>
        if getWeekNumber n = getWeekNumber today ∧ yearFromDay n = yearFromDay today then
          addVolumes rt workout acc
        else acc
      | _ => acc) acc
    = acc + ((l.filter (fun w =>
        match parseDatum rt ((w.get "Datum").getD "") with
        | some (some n) =>
          decide (getWeekNumber n = getWeekNumber today ∧ yearFromDay n = yearFromDay today)
        | _ => false)).map (fun w => addVolumes rt w 0)).sum := by
  induction l generalizing acc with
  | nil => simp
  | cons w rest ih =>
    rw [List.foldl_cons, ih]
    cases hp : parseDatum rt ((w.get "Datum").getD "") with
    | none => simp [List.filter_cons, hp]
    | some d =>
      cases d with
      | none => simp [List.filter_cons, hp]
      | some n =>
        by_cases hc : getWeekNumber n = getWeekNumber today ∧ yearFromDay n = yearFromDay today
        · simp only [List.filter_cons, hp, hc, and_self, decide_True, if_true, List.map_cons,
            List.sum_cons]
          rw [addVolumes_acc]
          ring
        · simp [List.filter_cons, hp, hc]

/-- The volume `showCompletionScreen` reads from the snapshot is the sum of
the volumes of exactly the rows that pass `includedInWeek`. -/
theorem snapshotWeekVolume_eq_sum (rt : Runtime) (today : Int) (all : List Workout) :
    snapshotWeekVolume rt today all
      = ((all.filter (includedInWeek rt today)).map (fun w => addVolumes rt w 0)).sum := by
  unfold snapshotWeekVolume
  simp only
  rw [snapshotWeekVolume_foldl, zero_add, List.filter_filter]
  congr 2
  apply List.filter_congr
  intro w _
  unfold includedInWeek
  exact Bool.and_comm _ _

/-- A session whose date has the ISO week key of today and lies in today's
calendar year passes the test of the code, when the years involved lie
outside 0 to 99. -/
theorem includedInWeek_of_isoWeekKey (rt : Runtime) (today : Int) (w : Workout) (n : Int)
    (hc : completedWithDate w = true)
    (hp : parseDatum rt ((w.get "Datum").getD "") = some (some n))
    (hkey : isoWeekKey n = isoWeekKey today) (hyear : yearFromDay n = yearFromDay today)
    (h1 : ¬ (0 ≤ yearFromDay today ∧ yearFromDay today ≤ 99))
    (h2 : ¬ (0 ≤ yearFromDay (weekThursday today) ∧ yearFromDay (weekThursday today) ≤ 99)) :
    includedInWeek rt today w = true := by
  have hth : weekThursday n = weekThursday today :=
    weekThursday_of_weekMonday ((isoWeekKey_eq_iff n today).1 hkey)
  have hw : getWeekNumber n = getWeekNumber today := by
    rw [getWeekNumber_eq_isoWeek n (by rw [hyear]; exact h1) (by rw [hth]; exact h2),
      getWeekNumber_eq_isoWeek today h1 h2]
    exact congrArg Prod.snd hkey
  simp [includedInWeek, hc, hp, hw, hyear]

/-- C11 (the code at the failing input): today is Monday 30 December 2024
(ISO week 2025-W01), and the snapshot holds one completed Chest session dated
1 January 2024 (ISO week 2024-W01) with volume 7.  The session's ISO week key
differs from today's and it lies in another Monday-to-Sunday week, yet its
week number 1 and its calendar year 2024 equal today's, so
`showCompletionScreen` includes its volume. -/
theorem snapshotWeekVolume_week_of_last_january :
    specDate (mkRow .Chest 2 "ja" "01/01/2024" "7") = some (makeDay 2024 0 1) ∧
    isoWeekKey (makeDay 2024 0 1) = (2024, 1) ∧
    isoWeekKey (makeDay 2024 11 30) = (2025, 1) ∧
    weekMonday (makeDay 2024 0 1) ≠ weekMonday (makeDay 2024 11 30) ∧
    includedInWeek digitRuntime (makeDay 2024 11 30) (mkRow .Chest 2 "ja" "01/01/2024" "7")
      = true ∧
    snapshotWeekVolume digitRuntime (makeDay 2024 11 30)
      [mkRow .Chest 2 "ja" "01/01/2024" "7"] = 7 := by
  refine ⟨by decide, by decide, by decide, by decide, by decide!, by decide!⟩

/-! ### C13: the two date formats -/

/-- On a host at or east of UTC (offset below one day) a date-only string
denotes its own calendar day. -/
theorem hostRuntime_parseDate_east (offset : Int) (h0 : 0 ≤ offset) (h1 : offset < 1440)
    (s : String) : (hostRuntime offset).parseDate s = isoDateDay s := by
  unfold hostRuntime
  simp only
  cases isoDateDay s with
  | none => rfl
  | some d =>
    simp only [Option.map_some', Option.some.injEq]
    omega

/-- On a host west of UTC (offset down to minus one day) a date-only string
denotes the calendar day before its own. -/
theorem hostRuntime_parseDate_west (offset : Int) (h0 : offset < 0) (h1 : -1440 ≤ offset)
    (s : String) : (hostRuntime offset).parseDate s = (isoDateDay s).map (fun d => d - 1) := by
  unfold hostRuntime
  simp only
  cases isoDateDay s with
  | none => rfl
  | some d =>
    simp only [Option.map_some', Option.some.injEq]
    omega

/-- C13 (the code at the failing input): on a host five hours west of UTC,
Monday 1 January 2024 written `01/01/2024` gets the bucket key `2024-W1`, and
written `2024-01-01` it gets `2023-W52`, because `new Date("2024-01-01")` is
midnight UTC, which is still 31 December 2023 on that host.  One hour east of
UTC both spellings get `2024-W1`.  On any host, 15 June of the year 50 gets
the year 1950 from `15/06/0050` and the year 50 from `0050-06-15`. -/
theorem weekKeyOf_depends_on_format :
    weekKeyOf (hostRuntime (-300)) (mkRow .Chest 2 "ja" "01/01/2024" "7")
      = some (some 2024, some 1) ∧
    weekKeyOf (hostRuntime (-300)) (mkRow .Chest 2 "ja" "2024-01-01" "7")
      = some (some 2023, some 52) ∧
    weekKeyOf (hostRuntime 60) (mkRow .Chest 2 "ja" "01/01/2024" "7")
      = some (some 2024, some 1) ∧
    weekKeyOf (hostRuntime 60) (mkRow .Chest 2 "ja" "2024-01-01" "7")
      = some (some 2024, some 1) ∧
    weekKeyOf digitRuntime (mkRow .Chest 2 "ja" "15/06/0050" "7")
      = some (some 1950, some 24) ∧
    weekKeyOf digitRuntime (mkRow .Chest 2 "ja" "0050-06-15" "7")
      = some (some 50, some 24) := by
  refine ⟨by decide!, by decide!, by decide!, by decide!, by decide!, by decide!⟩

/-! ### C12: row parsing -/

theorem buildRow_foldl_index (pairs : List (String × String)) (row : RowObject)
    (h : ∀ hv ∈ pairs, hv.1 ≠ "originalRowIndex") :
    objGet (pairs.foldl (fun row hv => objSet row hv.1 (Value.text hv.2)) row) "originalRowIndex"
      = objGet row "originalRowIndex" := by
  induction pairs generalizing row with
  | nil => rfl
  | cons hv rest ih =>
    rw [List.foldl_cons, ih _ (fun x hx => h x (List.mem_cons_of_mem _ hx))]
    exact objGet_objSet_other _ _ _ _ (Ne.symm (h hv (List.mem_cons_self _ _)))

/-- When no header cell is named `originalRowIndex`, the row object of line
`i` carries the number `i + 1`. -/
theorem rowIndexOf_buildRow (type : WorkoutType) (i : Nat) (headers values : List String)
    (h : "originalRowIndex" ∉ headers) :
    rowIndexOf (buildRow type i headers values) = some (Value.number (i + 1)) := by
  unfold rowIndexOf buildRow
  rw [buildRow_foldl_index]
  · simp [objGet]
  · intro hv hhv heq
    exact h (heq ▸ (List.of_mem_zip hhv).1)

theorem rowIndexOf_parseLines (type : WorkoutType) (headers : List String)
    (h : "originalRowIndex" ∉ headers) (i : Nat) (lines : List String) :
    (parseLines type headers i lines).map rowIndexOf
      = (((lines.enumFrom (i + 1)).filter
          (fun pl => decide ((cells pl.2).length = headers.length))).map Prod.fst).map
        (fun p => some (Value.number p)) := by
  induction lines generalizing i with
  | nil => rfl
  | cons line rest ih =>
    unfold parseLines
    rw [List.enumFrom_cons]
    by_cases hc : (cells line).length = headers.length
    · rw [if_pos hc, List.filter_cons_of_pos (by simpa using hc)]
      simp only [List.map_cons]
      rw [ih (i + 1), rowIndexOf_buildRow type i headers _ h]
    · rw [if_neg hc, List.filter_cons_of_neg (by simpa using hc)]
      exact ih (i + 1)

theorem enumFrom_filter_ascending {α : Type} (p : Nat × α → Bool) (l : List α) (start : Nat) :
    (((l.enumFrom start).filter p).map Prod.fst).Pairwise (fun a b => a < b) ∧
    ∀ a ∈ ((l.enumFrom start).filter p).map Prod.fst, start ≤ a := by
  induction l generalizing start with
  | nil => simp
  | cons x xs ih =>
    obtain ⟨h1, h2⟩ := ih (start + 1)
    rw [List.enumFrom_cons]
    by_cases hp : p (start, x) = true
    · rw [List.filter_cons_of_pos hp]
      simp only [List.map_cons]
      refine ⟨List.pairwise_cons.2 ⟨fun a ha => ?_, h1⟩, fun a ha => ?_⟩
      · have := h2 a ha
        omega
      · rcases List.mem_cons.1 ha with rfl | ha
        · exact le_refl _
        · have := h2 a ha
          omega
    · rw [List.filter_cons_of_neg hp]
      exact ⟨h1, fun a ha => by have := h2 a ha; omega⟩

/-- For a text whose header line has no cell named `originalRowIndex`: the rows
`fetchSheet` returns carry, in order, the positions of the data lines that
have as many cells as the header; these positions are strictly ascending, so
pairwise distinct, and a dropped line shifts none of them. -/
theorem fetchSheet_row_indices (type : WorkoutType) (text : String)
    (h : "originalRowIndex" ∉ cells ((split (trim text) '\n').headD "")) :
    (fetchSheet type text).map rowIndexOf
      = (keptPositions text).map (fun p => some (Value.number p)) ∧
    (keptPositions text).Pairwise (fun a b => a < b) ∧
    ∀ p ∈ keptPositions text, 2 ≤ p := by
  unfold fetchSheet keptPositions
  simp only
  cases hl : split (trim text) '\n' with
  | nil => simp
  | cons header dataLines =>
    rw [hl] at h
    simp only [List.headD_cons] at h
    have hasc := enumFrom_filter_ascending
      (fun pl : Nat × String => decide ((cells pl.2).length = (cells header).length)) dataLines 2
    refine ⟨?_, hasc.1, hasc.2⟩
    cases dataLines with
    | nil => simp
    | cons d ds =>
      have hlen : ¬ (header :: d :: ds).length < 2 := by simp
      rw [if_neg hlen]
      exact rowIndexOf_parseLines type (cells header) h 1 (d :: ds)

/-- C12 (the code at the failing input): the header line has a cell named
`originalRowIndex`.  `row[header] = values[index]` then overwrites the row
number: both data lines, at positions 2 and 3, come out carrying the cell text
`7` as their `originalRowIndex`. -/
theorem fetchSheet_header_named_originalRowIndex :
    fetchSheet .Chest "originalRowIndex,Datum\n7,01/01/2024\n7,02/01/2024"
      = [[("workoutType", Value.group .Chest), ("originalRowIndex", Value.text "7"),
          ("Datum", Value.text "01/01/2024")],
         [("workoutType", Value.group .Chest), ("originalRowIndex", Value.text "7"),
          ("Datum", Value.text "02/01/2024")]] ∧
    keptPositions "originalRowIndex,Datum\n7,01/01/2024\n7,02/01/2024" = [2, 3] ∧
    (fetchSheet .Chest "Info,Datum\n7,01/01/2024\nbroken\n7,02/01/2024").map rowIndexOf
      = [some (Value.number 2), some (Value.number 4)] := by
  refine ⟨by decide, by decide, by decide⟩

/-! ### C14: ties in the initial group choice -/

theorem handleFetchData_eq_on_arraySort (rt : Runtime)
    (sheets : Option (List Workout × List Workout × List Workout)) (s : AppState) :
    handleFetchData rt sheets s = handleFetchDataOn arraySort rt sheets s := rfl

/-- C14 (the code at the failing inputs): (1) no sheet has a completed
session.  The comparator answers -1 for two never-completed groups in either
order, so it is not a consistent comparator and the engine decides: V8 takes
the three entries for a descending run and reverses them, which makes Legs
(index 2) the starting group, while the insertion sort of this development
keeps Chest (index 0).  (2) With Chest completed and Back and Legs never
completed, V8 again starts with Legs, not with Back.  (3) Chest was last
completed on 5 January 2024, Back on 4 January written `2024-01-04`, Legs on
3 January: the loop reads only day/month/year, Back's date becomes an
`Invalid Date`, every comparison with it is `NaN`, and on both engines the
starting group is Chest although Legs has the earliest date. -/
theorem handleFetchData_tie_depends_on_engine :
    compareLastDates none none = some (-1) ∧
    (handleFetchDataOn v8SortShort digitRuntime
      (some ([mkRow .Chest 2 "nej" "" ""], [mkRow .Back 2 "nej" "" ""],
             [mkRow .Legs 2 "nej" "" ""]))
      (stateWith [] 0)).currentWorkoutGroupIndex = 2 ∧
    (handleFetchDataOn v8SortShort digitRuntime
      (some ([mkRow .Chest 2 "nej" "" ""], [mkRow .Back 2 "nej" "" ""],
             [mkRow .Legs 2 "nej" "" ""]))
      (stateWith [] 0)).activeView = View.home ∧
    (handleFetchData digitRuntime
      (some ([mkRow .Chest 2 "nej" "" ""], [mkRow .Back 2 "nej" "" ""],
             [mkRow .Legs 2 "nej" "" ""]))
      (stateWith [] 0)).currentWorkoutGroupIndex = 0 ∧
    (handleFetchDataOn v8SortShort digitRuntime
      (some ([mkRow .Chest 2 "ja" "01/01/2024" ""], [mkRow .Back 2 "nej" "" ""],
             [mkRow .Legs 2 "nej" "" ""]))
      (stateWith [] 0)).currentWorkoutGroupIndex = 2 ∧
    specLastCompletedDate [mkRow .Chest 2 "ja" "05/01/2024" ""] = some (makeDay 2024 0 5) ∧
    specLastCompletedDate [mkRow .Back 2 "ja" "2024-01-04" ""] = some (makeDay 2024 0 4) ∧
    specLastCompletedDate [mkRow .Legs 2 "ja" "03/01/2024" ""] = some (makeDay 2024 0 3) ∧
    lastCompleted digitRuntime [mkRow .Back 2 "ja" "2024-01-04" ""] = some none ∧
    (handleFetchData digitRuntime
      (some ([mkRow .Chest 2 "ja" "05/01/2024" ""], [mkRow .Back 2 "ja" "2024-01-04" ""],
             [mkRow .Legs 2 "ja" "03/01/2024" ""]))
      (stateWith [] 0)).currentWorkoutGroupIndex = 0 ∧
    (handleFetchDataOn v8SortShort digitRuntime
      (some ([mkRow .Chest 2 "ja" "05/01/2024" ""], [mkRow .Back 2 "ja" "2024-01-04" ""],
             [mkRow .Legs 2 "ja" "03/01/2024" ""]))
      (stateWith [] 0)).currentWorkoutGroupIndex = 0 := by
  refine ⟨by decide, by decide, by decide, by decide, by decide!, by decide, by decide,
    by decide, by decide!, by decide!, by decide!⟩

/-! ### Rows of the data model from `fetchSheet` -/

theorem buildRow_foldl_get (key : String) (pairs : List (String × String)) (row : RowObject)
    (h : ∀ hv ∈ pairs, hv.1 ≠ key) :
    objGet (pairs.foldl (fun row hv => objSet row hv.1 (Value.text hv.2)) row) key
      = objGet row key := by
  induction pairs generalizing row with
  | nil => rfl
  | cons hv rest ih =>
    rw [List.foldl_cons, ih _ (fun x hx => h x (List.mem_cons_of_mem _ hx))]
    exact objGet_objSet_other _ _ _ _ (Ne.symm (h hv (List.mem_cons_self _ _)))

/-- When no header cell is named `workoutType` or `originalRowIndex`, the row
object of line `i` is a row of the data model with the sheet's type and the
row number `i + 1`. -/
theorem toWorkout_buildRow (type : WorkoutType) (i : Nat) (headers values : List String)
    (h1 : "workoutType" ∉ headers) (h2 : "originalRowIndex" ∉ headers) :
    ∃ w, (buildRow type i headers values).toWorkout = some w ∧ w.workoutType = type ∧
      w.originalRowIndex = i + 1 := by
  have e1 : objGet (buildRow type i headers values) "workoutType" = some (Value.group type) := by
    unfold buildRow
    rw [buildRow_foldl_get]
    · simp [objGet]
    · intro hv hhv heq
      exact h1 (heq ▸ (List.of_mem_zip hhv).1)
  have e2 : objGet (buildRow type i headers values) "originalRowIndex"
      = some (Value.number (i + 1)) := rowIndexOf_buildRow type i headers values h2
  unfold RowObject.toWorkout
  rw [e1, e2]
  exact ⟨_, rfl, rfl, rfl⟩

theorem toWorkout_parseLines (type : WorkoutType) (headers : List String)
    (h1 : "workoutType" ∉ headers) (h2 : "originalRowIndex" ∉ headers) (i : Nat)
    (lines : List String) :
    ((parseLines type headers i lines).filterMap RowObject.toWorkout).map
        (fun w => w.originalRowIndex)
      = ((lines.enumFrom (i + 1)).filter
          (fun pl => decide ((cells pl.2).length = headers.length))).map Prod.fst := by
  induction lines generalizing i with
  | nil => rfl
  | cons line rest ih =>
    unfold parseLines
    rw [List.enumFrom_cons]
    by_cases hc : (cells line).length = headers.length
    · obtain ⟨w, hw, _, hidx⟩ := toWorkout_buildRow type i headers (cells line) h1 h2
      rw [if_pos hc, List.filter_cons_of_pos (by simpa using hc), List.filterMap_cons_some hw]
      simp only [List.map_cons]
      rw [ih (i + 1), hidx]
    · rw [if_neg hc, List.filter_cons_of_neg (by simpa using hc)]
      exact ih (i + 1)

/-- For a text whose header line has no cell named `workoutType` or
`originalRowIndex`, the rows of the data model that `fetchSheet` delivers stand
in strictly ascending `originalRowIndex` order: the order `updateWorkoutView`
relies on. -/
theorem fetchSheet_rows_ascending (type : WorkoutType) (text : String)
    (h1 : "workoutType" ∉ cells ((split (trim text) '\n').headD ""))
    (h2 : "originalRowIndex" ∉ cells ((split (trim text) '\n').headD "")) :
    ((fetchSheet type text).filterMap RowObject.toWorkout).Pairwise
      (fun a b => a.originalRowIndex < b.originalRowIndex) := by
  have key : (((fetchSheet type text).filterMap RowObject.toWorkout).map
      (fun w => w.originalRowIndex)).Pairwise (fun a b => a < b) := by
    unfold fetchSheet
    simp only
    cases hl : split (trim text) '\n' with
    | nil => simp
    | cons header dataLines =>
      rw [hl] at h1 h2
      simp only [List.headD_cons] at h1 h2
      cases dataLines with
      | nil => simp
      | cons d ds =>
        have hlen : ¬ (header :: d :: ds).length < 2 := by simp
        rw [if_neg hlen, toWorkout_parseLines type (cells header) h1 h2 1 (d :: ds)]
        exact (enumFrom_filter_ascending _ (d :: ds) 2).1
  exact List.pairwise_map.1 key

end TrainingApp
